import Mathlib

set_option maxRecDepth 10000
set_option maxHeartbeats 1000000

/-!
# Verification of the ansible-git-inventory expansion algorithm

A shallow embedding of `inventory.py`, the dynamic-inventory script that
reads a two-level tier/location YAML inventory out of a git snapshot and
expands it into a flat, cross-referenced Ansible group dictionary.

The embedding follows the source closely:

* YAML values are modelled by the inductive type `Yaml` (string keys, as in
  the spec's data model).
* The Python `result` dict of `parse_inventory` is modelled as an
  association list `Res` with first-match lookup (`getKey`) and
  replace-or-append update (`setKey`), which matches dict semantics as long
  as keys stay unique (updates never duplicate keys).
* `result[k]['children'].append(c)` is `appendChild`: it fails with a
  `KeyError` exactly when the descriptor under `k` has no `children` slot,
  as the Python does.
* The tier loop body (lines 93-107) is `procTier`, the location loop body
  (lines 109-140) is `procLoc`, the `loc`-group update (lines 126-132) is
  `locUpdate`; `buildResult` is the whole loop of `parse_inventory`, and
  `parse_inventory` adds the file lookup, the `yaml.load` outcome and the
  `json.dumps` serialization (`serializeRes`).
* Exceptions are modelled with `Except PyError`; any raised exception
  aborts the function with no output, as in Python.
-/

mutual
inductive Yaml where
  | str (s : String)
  | int (n : Int)
  | null
  | seq (xs : YamlSeq)
  | map (kvs : YamlMap)

inductive YamlSeq where
  | nil
  | cons (hd : Yaml) (tl : YamlSeq)

inductive YamlMap where
  | nil
  | cons (key : String) (val : Yaml) (tl : YamlMap)
end

/-- Convert a Lean list of YAML values into a `YamlSeq`. -/
def YamlSeq.ofList : List Yaml → YamlSeq
  | [] => .nil
  | x :: xs => .cons x (YamlSeq.ofList xs)

/-- Convert a Lean association list into a `YamlMap`. -/
def YamlMap.ofList : List (String × Yaml) → YamlMap
  | [] => .nil
  | (k, v) :: kvs => .cons k v (YamlMap.ofList kvs)

/-- The key/value pairs of a `YamlMap`, as a Lean list (the order
`iteritems()` yields them in). -/
def YamlMap.toList : YamlMap → List (String × Yaml)
  | .nil => []
  | .cons k v tl => (k, v) :: YamlMap.toList tl

/-- Shorthand for building sequences of plain host strings. -/
def yhosts (hs : List String) : Yaml := .seq (YamlSeq.ofList (hs.map .str))

/-- A value of the Python `result` dict: `{'children': [...]}`,
`{'hosts': <yaml value>}` (hosts are passed through opaquely), or the
reserved `{'hostvars': {}}` descriptor stored under `_meta`. -/
inductive GroupDesc where
  | children (gs : List String)
  | hosts (hs : Yaml)
  | meta

/-- The Python `result` dict, as an association list. -/
abbrev Res := List (String × GroupDesc)

/-- Python dict lookup (first matching key). -/
def getKey (k : String) : Res → Option GroupDesc
  | [] => none
  | (k', v) :: r => if k' = k then some v else getKey k r

/-- Python dict assignment: replace the binding in place if present,
append a fresh binding otherwise. -/
def setKey (k : String) (v : GroupDesc) : Res → Res
  | [] => [(k, v)]
  | (k', v') :: r => if k' = k then (k', v) :: r else (k', v') :: setKey k v r

def hasKey (k : String) (r : Res) : Bool := (getKey k r).isSome

/-- The Python exceptions `parse_inventory` can raise. -/
inductive PyError where
  | ioError (msg : String)
  | yamlError (msg : String)
  | keyError (key : String)
  | attrError (msg : String)

/-- `result[k]['children'].append(c)`: a `KeyError` is raised when `k` is
absent or the descriptor under `k` has no `'children'` entry. -/
def appendChild (k c : String) (r : Res) : Except PyError Res :=
  match getKey k r with
  | some (.children cs) => .ok (setKey k (.children (cs ++ [c])) r)
  | some _ => .error (.keyError "children")
  | none => .error (.keyError k)

/-- Lines 126-132: add `inv_loc` to the `loc` group, creating the group when
absent and deduplicating the append otherwise.  The `elif` reads
`result[loc]['children']`, so a `loc` whose descriptor has no `children`
slot raises `KeyError`. -/
def locUpdate (loc il : String) (r : Res) : Except PyError Res :=
  match getKey loc r with
  | none => .ok (setKey loc (.children [il]) r)
  | some (.children cs) =>
      .ok (if il ∈ cs then r else setKey loc (.children (cs ++ [il])) r)
  | some _ => .error (.keyError "children")

/-- Error-propagating left fold: the loop bodies of `parse_inventory`
abort the whole call on the first raised exception. -/
def foldE (f : Res → α → Except PyError Res) : Res → List α → Except PyError Res
  | r, [] => .ok r
  | r, x :: xs =>
      match f r x with
      | .error e => .error e
      | .ok r' => foldE f r' xs

/-- Lines 109-140: the body of the inner `for loc, hosts in group.iteritems()`
loop. -/
def procLoc (name tier : String) (r : Res) (loc : String) (hosts : Yaml) :
    Except PyError Res :=
  let tl := tier ++ "-" ++ loc
  let il := name ++ "-" ++ loc
  let itl := name ++ "-" ++ tl
  match appendChild tier tl r with
  | .error e => .error e
  | .ok r1 =>
    let r2 := if hasKey il r1 then r1 else setKey il (.children []) r1
    match appendChild il tl r2 with
    | .error e => .error e
    | .ok r3 =>
      match locUpdate loc il r3 with
      | .error e => .error e
      | .ok r4 => .ok (setKey itl (.children [tl]) (setKey tl (.hosts hosts) r4))

/-- Lines 93-107 plus the inner loop: the body of the outer
`for tier, group in data.iteritems()` loop.  A non-mapping `group` raises
`AttributeError` (`iteritems`) after the three tier-level writes. -/
def procTier (name : String) (r : Res) (tier : String) (group : Yaml) :
    Except PyError Res :=
  match appendChild name tier
      (setKey (name ++ "-" ++ tier) (.children [tier])
        (setKey tier (.children []) r)) with
  | .error e => .error e
  | .ok r3 =>
    match group with
    | .map kvs => foldE (fun r lv => procLoc name tier r lv.1 lv.2) r3 kvs.toList
    | _ => .error (.attrError "iteritems")

/-- Lines 83-90: the seed result dict
`{'_meta': {'hostvars': {}}, name: {'children': []}}`.  When `name` is
itself `"_meta"` the later literal entry wins, as in Python. -/
def initRes (name : String) : Res :=
  setKey name (.children []) [("_meta", GroupDesc.meta)]

/-- Lines 83-141: build the whole result dict from the loaded YAML value.
A non-mapping document raises `AttributeError` at `data.iteritems()`. -/
def buildResult (name : String) (data : Yaml) : Except PyError Res :=
  match data with
  | .map kvs =>
      foldE (fun r tg => procTier name r tg.1 tg.2) (initRes name) kvs.toList
  | _ => .error (.attrError "iteritems")

/-- A well-shaped (two-level) source inventory: tiers, then locations, then
an opaque YAML hosts value, used to state the universally quantified
claims.  `invToYaml` injects it back into the YAML values `buildResult`
consumes. -/
abbrev SrcInv := List (String × List (String × Yaml))

def invToYaml (data : SrcInv) : Yaml :=
  .map (YamlMap.ofList (data.map fun tg => (tg.1, .map (YamlMap.ofList tg.2))))

/-- `buildResult` restricted to well-shaped input (the shape checks of
`procTier` always succeed there); `expandData_eq` proves it agrees with
`buildResult`. -/
def procTierI (name : String) (r : Res) (tier : String)
    (group : List (String × Yaml)) : Except PyError Res :=
  match appendChild name tier
      (setKey (name ++ "-" ++ tier) (.children [tier])
        (setKey tier (.children []) r)) with
  | .error e => .error e
  | .ok r3 => foldE (fun r lv => procLoc name tier r lv.1 lv.2) r3 group

def expandData (name : String) (data : SrcInv) : Except PyError Res :=
  foldE (fun r tg => procTierI name r tg.1 tg.2) (initRes name) data

/-- Split a character list at every occurrence of `c` (the semantics of
Python's `str.split` with an explicit single-character separator). -/
def splitOnChar (c : Char) : List Char → List (List Char)
  | [] => [[]]
  | x :: xs =>
      if x = c then [] :: splitOnChar c xs
      else
        match splitOnChar c xs with
        | [] => [[x]]
        | g :: gs => (x :: g) :: gs

/-- Line 72: `name = os.path.basename(inventory).split('.')[0]` —
the path component after the last `/`, truncated at its first `.`. -/
def deriveName (path : String) : String :=
  String.mk ((splitOnChar '.' ((splitOnChar '/' path.data).getLastD [])).headD [])

def notFoundMsg (path : String) : String :=
  "Inventory file \x22" ++ path ++ "\x22 not found in repository"

/-!
## JSON serialization

`json.dumps(obj=result, sort_keys=True, indent=4, separators=(',', ': '))`:
keys sorted bytewise at every level, four-space indentation, item separator
`","` (followed by the indent newline) and key separator `": "`.  Strings
are escaped as by Python's default `ensure_ascii=True` encoder.  The
renderer is parameterised by the item separator so that the format the
spec text describes (item separator `", "`) can be stated alongside and
compared.
-/

def ind4 (n : Nat) : String := String.pushn "" ' ' (4 * n)

/-- Lexicographic strict comparison of character lists by code point.
Python 2 compares `str` keys bytewise; UTF-8 byte order coincides with
code-point order, so this is the order `sort_keys=True` sorts by. -/
def charsLt : List Char → List Char → Bool
  | [], [] => false
  | [], _ :: _ => true
  | _ :: _, [] => false
  | a :: as, b :: bs =>
      if a.toNat < b.toNat then true
      else if b.toNat < a.toNat then false
      else charsLt as bs

def strLe (a b : String) : Bool := !charsLt b.data a.data

def insertPair (p : String × String) :
    List (String × String) → List (String × String)
  | [] => [p]
  | q :: ps => if strLe p.1 q.1 then p :: q :: ps else q :: insertPair p ps

/-- Sort rendered key/value pairs by key (the effect of `sort_keys=True`). -/
def sortPairs : List (String × String) → List (String × String)
  | [] => []
  | p :: ps => insertPair p (sortPairs ps)

def hexDigit (n : Nat) : Char :=
  if n < 10 then Char.ofNat (48 + n) else Char.ofNat (87 + n)

def hex4 (n : Nat) : String :=
  String.mk [hexDigit (n / 4096 % 16), hexDigit (n / 256 % 16),
    hexDigit (n / 16 % 16), hexDigit (n % 16)]

/-- Python `json` string escaping with `ensure_ascii=True`. -/
def escapeChar (c : Char) : String :=
  if c = '\x22' then "\\\x22"
  else if c = '\\' then "\\\\"
  else if c = '\n' then "\\n"
  else if c = '\t' then "\\t"
  else if c = '\x0d' then "\\r"
  else if c = '\x08' then "\\b"
  else if c = '\x0c' then "\\f"
  else if c.toNat < 32 ∨ c.toNat > 126 then
    if c.toNat < 65536 then "\\u" ++ hex4 c.toNat
    else
      "\\u" ++ hex4 (55296 + (c.toNat - 65536) / 1024) ++
        "\\u" ++ hex4 (56320 + (c.toNat - 65536) % 1024)
  else String.mk [c]

def jsonEscape (s : String) : String := String.join (s.data.map escapeChar)

def quoteStr (s : String) : String := "\x22" ++ jsonEscape s ++ "\x22"

/-- Wrap already-rendered, indented items into a JSON container. -/
def wrapItems (isep : String) (ind : Nat) (opening closing : String)
    (items : List String) : String :=
  opening ++ "\n" ++ String.intercalate (isep ++ "\n") items ++
    "\n" ++ ind4 ind ++ closing

mutual
/-- The JSON renderer of `json.dumps(..., sort_keys=True, indent=4,
separators=(isep, ': '))`: `ind` is the current nesting level, `isep` the
item separator (the source passes `','`). -/
def yjVal (isep : String) (ind : Nat) : Yaml → String
  | .str s => quoteStr s
  | .int n => toString n
  | .null => "null"
  | .seq xs =>
      match yjSeq isep (ind + 1) xs with
      | [] => "[]"
      | item :: items =>
          wrapItems isep ind "[" "]"
            ((item :: items).map (fun it => ind4 (ind + 1) ++ it))
  | .map kvs =>
      match yjMap isep (ind + 1) kvs with
      | [] => "\x7b\x7d"
      | kv :: kvss =>
          wrapItems isep ind "\x7b" "\x7d"
            ((sortPairs (kv :: kvss)).map
              (fun p => ind4 (ind + 1) ++ quoteStr p.1 ++ ": " ++ p.2))
termination_by structural v => v

/-- Render the elements of a sequence (at nesting level `ind`). -/
def yjSeq (isep : String) (ind : Nat) : YamlSeq → List String
  | .nil => []
  | .cons x xs => yjVal isep ind x :: yjSeq isep ind xs
termination_by structural v => v

/-- Render the values of a mapping (at nesting level `ind`), keeping keys. -/
def yjMap (isep : String) (ind : Nat) : YamlMap → List (String × String)
  | .nil => []
  | .cons k v tl => (k, yjVal isep ind v) :: yjMap isep ind tl
termination_by structural v => v
end

def descToYaml : GroupDesc → Yaml
  | .children gs => .map (.cons "children" (.seq (YamlSeq.ofList (gs.map .str))) .nil)
  | .hosts v => .map (.cons "hosts" v .nil)
  | .meta => .map (.cons "hostvars" (.map .nil) .nil)

def resToYaml (r : Res) : Yaml :=
  .map (YamlMap.ofList (r.map fun kv => (kv.1, descToYaml kv.2)))

/-- Line 142: `json.dumps(obj=result, sort_keys=True, indent=4,
separators=(',', ': '))`. -/
def serializeRes (r : Res) : String := yjVal "," 0 (resToYaml r)

/-- The serialization the spec's words describe, with `", "` as the item
separator (to be compared with `serializeRes`, which is what the source
does). -/
def serializeResSpecSep (r : Res) : String := yjVal ", " 0 (resToYaml r)

/-- Lines 69-142: a file system maps a relative path either to nothing
(no file), or to the outcome of `yaml.load` on the file's content (a
parser failure or a YAML value). -/
def parse_inventory (fs : String → Option (Except String Yaml))
    (path : String) : Except PyError String :=
  match fs path with
  | none => .error (.ioError (notFoundMsg path))
  | some (.error msg) => .error (.yamlError msg)
  | some (.ok data) =>
    match buildResult (deriveName path) data with
    | .error e => .error e
    | .ok res => .ok (serializeRes res)

/-!
## Invocation-input resolution (`__main__`, lines 156-186)

The environment branch is taken exactly when `'URL' in os.environ and
'INVENTORY' in os.environ and os.environ['URL'] and os.environ['INVENTORY']`
holds: both variables present and (as Python truthiness of a string)
non-empty.  `SSHKEY` and `COMMIT` are forwarded whenever present.
-/

structure CliArgs where
  url : String
  inventory : String
  sshkey : Option String
  commit : Option String
  deriving DecidableEq, Repr

structure Config where
  url : String
  inventory : String
  sshkey : Option String
  commit : Option String
  deriving DecidableEq, Repr

def envTruthy : Option String → Bool
  | some s => !s.isEmpty
  | none => false

def useEnvironment (env : String → Option String) : Bool :=
  (env "URL").isSome && (env "INVENTORY").isSome &&
    envTruthy (env "URL") && envTruthy (env "INVENTORY")

def envConfig (env : String → Option String) : Config :=
  { url := (env "URL").getD "", inventory := (env "INVENTORY").getD "",
    sshkey := env "SSHKEY", commit := env "COMMIT" }

def cliConfig (args : CliArgs) : Config :=
  { url := args.url, inventory := args.inventory,
    sshkey := args.sshkey, commit := args.commit }

def resolveConfig (env : String → Option String) (args : CliArgs) : Config :=
  if useEnvironment env then envConfig env else cliConfig args

/-!
## Basic lemmas: dict operations
-/

theorem getKey_setKey (j k : String) (v : GroupDesc) (r : Res) :
    getKey j (setKey k v r) = if k = j then some v else getKey j r := by
  induction r with
  | nil =>
      by_cases h : k = j <;> simp [getKey, setKey, h]
  | cons hd tl ih =>
      obtain ⟨k', v'⟩ := hd
      by_cases h1 : k' = k
      · subst h1
        by_cases h2 : k' = j <;> simp [getKey, setKey, h2]
      · by_cases h2 : k' = j
        · subst h2
          have h1' : k ≠ k' := fun h => h1 h.symm
          simp [getKey, setKey, h1, h1']
        · simp [getKey, setKey, h1, h2, ih]

theorem getKey_setKey_self (k : String) (v : GroupDesc) (r : Res) :
    getKey k (setKey k v r) = some v := by
  simp [getKey_setKey]

theorem getKey_setKey_ne (h : k ≠ j) (v : GroupDesc) (r : Res) :
    getKey j (setKey k v r) = getKey j r := by
  simp [getKey_setKey, h]

theorem appendChild_ok_iff (k c : String) (r : Res) (r' : Res) :
    appendChild k c r = .ok r' ↔
      ∃ cs, getKey k r = some (.children cs) ∧
        r' = setKey k (.children (cs ++ [c])) r := by
  unfold appendChild
  cases h : getKey k r with
  | none => simp
  | some d =>
      cases d with
      | children cs => simp [eq_comm]
      | hosts hs => simp
      | meta => simp

theorem appendChild_ok_getKey_ne (h : appendChild k c r = .ok r') (hj : k ≠ j) :
    getKey j r' = getKey j r := by
  obtain ⟨cs, -, rfl⟩ := (appendChild_ok_iff k c r r').1 h
  exact getKey_setKey_ne hj _ _

theorem appendChild_ok_getKey_self (h : appendChild k c r = .ok r') :
    ∃ cs, getKey k r = some (.children cs) ∧
      getKey k r' = some (.children (cs ++ [c])) := by
  obtain ⟨cs, hcs, rfl⟩ := (appendChild_ok_iff k c r r').1 h
  exact ⟨cs, hcs, getKey_setKey_self _ _ _⟩

theorem locUpdate_none (hg : getKey loc r = none) :
    locUpdate loc il r = .ok (setKey loc (.children [il]) r) := by
  unfold locUpdate
  rw [hg]

theorem locUpdate_mem (hg : getKey loc r = some (.children cs)) (hmem : il ∈ cs) :
    locUpdate loc il r = .ok r := by
  unfold locUpdate
  rw [hg]
  simp [hmem]

theorem locUpdate_ok_getKey_ne (h : locUpdate loc il r = .ok r') (hj : loc ≠ j) :
    getKey j r' = getKey j r := by
  unfold locUpdate at h
  cases hg : getKey loc r with
  | none =>
      simp [hg] at h
      subst h
      exact getKey_setKey_ne hj _ _
  | some d =>
      cases d with
      | children cs =>
          simp [hg] at h
          subst h
          split
          · rfl
          · exact getKey_setKey_ne hj _ _
      | hosts hs => simp [hg] at h
      | meta => simp [hg] at h

theorem locUpdate_meta (h : locUpdate loc il r = .ok r')
    (hm : getKey "_meta" r = some .meta) :
    getKey "_meta" r' = some .meta := by
  by_cases hl : loc = "_meta"
  · subst hl
    unfold locUpdate at h
    rw [hm] at h
    simp at h
  · rw [locUpdate_ok_getKey_ne h hl]
    exact hm

/-!
## Basic lemmas: error-propagating fold
-/

theorem foldE_cons_ok (h : f r x = .ok r') :
    foldE f r (x :: xs) = foldE f r' xs := by
  simp [foldE, h]

theorem foldE_append_ok (f : Res → α → Except PyError Res) (l1 l2 : List α)
    (r : Res) (res : Res) :
    foldE f r (l1 ++ l2) = .ok res ↔
      ∃ mid, foldE f r l1 = .ok mid ∧ foldE f mid l2 = .ok res := by
  induction l1 generalizing r with
  | nil => simp [foldE]
  | cons x xs ih =>
      cases h : f r x with
      | error e => simp [foldE, h]
      | ok r' => simp [foldE, h, ih]

theorem foldE_inv (P : Res → Prop) (f : Res → α → Except PyError Res)
    (l : List α)
    (step : ∀ r x r', x ∈ l → P r → f r x = .ok r' → P r') :
    ∀ r res, P r → foldE f r l = .ok res → P res := by
  induction l with
  | nil =>
      intro r res hp h
      simp [foldE] at h
      exact h ▸ hp
  | cons x xs ih =>
      intro r res hp h
      cases hf : f r x with
      | error e => simp [foldE, hf] at h
      | ok r' =>
          rw [foldE_cons_ok hf] at h
          exact ih (fun r x r' hx => step r x r' (List.mem_cons_of_mem _ hx))
            r' res (step r x r' (List.mem_cons_self _ _) hp hf) h

theorem foldE_error_of_mem (f : Res → α → Except PyError Res) (l : List α)
    (x : α) (hx : x ∈ l) (herr : ∀ r, ∃ e, f r x = .error e) :
    ∀ r, ∃ e, foldE f r l = .error e := by
  induction l with
  | nil => cases hx
  | cons y ys ih =>
      intro r
      rcases List.mem_cons.1 hx with rfl | hmem
      · obtain ⟨e, he⟩ := herr r
        exact ⟨e, by simp [foldE, he]⟩
      · cases hf : f r y with
        | error e => exact ⟨e, by simp [foldE, hf]⟩
        | ok r' =>
            obtain ⟨e, he⟩ := ih hmem r'
            exact ⟨e, by rw [foldE_cons_ok hf]; exact he⟩

/-!
## Basic lemmas: derived group-name (in)equalities
-/

/-- A "plain" name: one that does not contain the `-` delimiter. -/
def plainStr (s : String) : Prop := ('-' : Char) ∉ s.data

instance plainStr.dec (s : String) : Decidable (plainStr s) :=
  inferInstanceAs (Decidable ('-' ∉ s.data))

theorem dash_data (a b : String) :
    (a ++ "-" ++ b).data = a.data ++ '-' :: b.data := by
  have hd : ("-" : String).data = ['-'] := rfl
  rw [String.data_append, String.data_append, hd, List.append_assoc]
  rfl

theorem plain_ne_dashed (hj : plainStr j) (a b : String) :
    j ≠ a ++ "-" ++ b := by
  intro h
  apply hj
  rw [h, dash_data]
  simp

theorem ne_dashed_left (a b : String) : a ≠ a ++ "-" ++ b := by
  intro h
  have hl := congrArg String.length h
  have hone : ("-" : String).length = 1 := rfl
  rw [String.length_append, String.length_append, hone] at hl
  omega

theorem dashed_ne_left (a b : String) : a ++ "-" ++ b ≠ a :=
  fun h => ne_dashed_left a b h.symm

theorem split_dash (as bs cs ds : List Char)
    (h : as ++ '-' :: bs = cs ++ '-' :: ds)
    (ha : ('-' : Char) ∉ as) (hc : ('-' : Char) ∉ cs) :
    as = cs ∧ bs = ds := by
  induction as generalizing cs with
  | nil =>
      cases cs with
      | nil => simpa using h
      | cons c cs' =>
          simp only [List.nil_append, List.cons_append, List.cons.injEq] at h
          rw [List.mem_cons, not_or] at hc
          exact absurd h.1 hc.1
  | cons a as' ih =>
      cases cs with
      | nil =>
          simp only [List.nil_append, List.cons_append, List.cons.injEq] at h
          rw [List.mem_cons, not_or] at ha
          exact absurd h.1.symm ha.1
      | cons c cs' =>
          simp only [List.cons_append, List.cons.injEq] at h
          rw [List.mem_cons, not_or] at ha hc
          obtain ⟨rfl, h2⟩ := h
          obtain ⟨rfl, rfl⟩ := ih cs' h2 ha.2 hc.2
          exact ⟨rfl, rfl⟩

theorem dashed_inj (ha : plainStr a) (hc : plainStr c)
    (h : a ++ "-" ++ b = c ++ "-" ++ d) : a = c ∧ b = d := by
  have hd : a.data ++ '-' :: b.data = c.data ++ '-' :: d.data := by
    rw [← dash_data, ← dash_data, h]
  obtain ⟨h1, h2⟩ := split_dash _ _ _ _ hd ha hc
  constructor
  · cases a; cases c; exact congrArg String.mk h1
  · cases b; cases d; exact congrArg String.mk h2

theorem plain_meta : plainStr "_meta" := by decide

theorem meta_ne_dashed (a b : String) : ("_meta" : String) ≠ a ++ "-" ++ b :=
  plain_ne_dashed plain_meta a b

theorem ne_dashed_right (a b : String) : b ≠ a ++ "-" ++ b := by
  intro h
  have hl := congrArg String.length h
  have hone : ("-" : String).length = 1 := rfl
  rw [String.length_append, String.length_append, hone] at hl
  omega

/-!
## Structural lemmas for the loop bodies
-/

theorem procLoc_ok_elim
    (hk : procLoc name tier r loc hosts = .ok r') :
    ∃ r1 r4,
      appendChild tier (tier ++ "-" ++ loc) r = .ok r1 ∧
      (∃ r3, appendChild (name ++ "-" ++ loc) (tier ++ "-" ++ loc)
          (if hasKey (name ++ "-" ++ loc) r1 then r1
           else setKey (name ++ "-" ++ loc) (.children []) r1) = .ok r3 ∧
        locUpdate loc (name ++ "-" ++ loc) r3 = .ok r4) ∧
      r' = setKey (name ++ "-" ++ (tier ++ "-" ++ loc))
            (.children [tier ++ "-" ++ loc])
            (setKey (tier ++ "-" ++ loc) (.hosts hosts) r4) := by
  unfold procLoc at hk
  simp only [] at hk
  split at hk
  · cases hk
  · next r1 h1 =>
      split at hk
      · cases hk
      · next r3 h3 =>
          split at hk
          · cases hk
          · next r4 h4 =>
              cases hk
              exact ⟨r1, r4, h1, ⟨r3, h3, h4⟩, rfl⟩

/-- Frame rule for `procLoc`: a key distinct from all five keys the body
writes is untouched. -/
theorem procLoc_frame
    (hk : procLoc name tier r loc hosts = .ok r')
    (h1 : tier ≠ j) (h2 : name ++ "-" ++ loc ≠ j) (h3 : loc ≠ j)
    (h4 : tier ++ "-" ++ loc ≠ j) (h5 : name ++ "-" ++ (tier ++ "-" ++ loc) ≠ j) :
    getKey j r' = getKey j r := by
  obtain ⟨r1, r4, ha, ⟨r3, hb, hc⟩, rfl⟩ := procLoc_ok_elim hk
  rw [getKey_setKey_ne h5, getKey_setKey_ne h4,
    locUpdate_ok_getKey_ne hc h3, appendChild_ok_getKey_ne hb h2]
  have hif : getKey j (if hasKey (name ++ "-" ++ loc) r1 then r1
      else setKey (name ++ "-" ++ loc) (.children []) r1) = getKey j r1 := by
    split
    · rfl
    · exact getKey_setKey_ne h2 _ _
  rw [hif, appendChild_ok_getKey_ne ha h1]

/-- After a successful `procLoc` the tier-location key holds exactly the
hosts value passed through. -/
theorem procLoc_hosts
    (hk : procLoc name tier r loc hosts = .ok r') :
    getKey (tier ++ "-" ++ loc) r' = some (.hosts hosts) := by
  obtain ⟨r1, r4, -, -, rfl⟩ := procLoc_ok_elim hk
  rw [getKey_setKey_ne (fun h => ne_dashed_right name (tier ++ "-" ++ loc) h.symm),
    getKey_setKey_self]

theorem procTierI_ok_elim
    (hk : procTierI name r tier group = .ok r') :
    ∃ r3, appendChild name tier
        (setKey (name ++ "-" ++ tier) (.children [tier])
          (setKey tier (.children []) r)) = .ok r3 ∧
      foldE (fun r lv => procLoc name tier r lv.1 lv.2) r3 group = .ok r' := by
  unfold procTierI at hk
  split at hk
  · cases hk
  · next r3 h3 => exact ⟨r3, h3, hk⟩

/-- Frame rule for `procTierI`: a key distinct from the tier-level keys and
from every key any location iteration writes is untouched. -/
theorem procTierI_frame
    (hk : procTierI name r tier group = .ok r')
    (h1 : tier ≠ j) (h2 : name ++ "-" ++ tier ≠ j) (h3 : name ≠ j)
    (h4 : ∀ lv ∈ group, name ++ "-" ++ lv.1 ≠ j ∧ lv.1 ≠ j ∧
      tier ++ "-" ++ lv.1 ≠ j ∧ name ++ "-" ++ (tier ++ "-" ++ lv.1) ≠ j) :
    getKey j r' = getKey j r := by
  obtain ⟨r3, ha, hb⟩ := procTierI_ok_elim hk
  have hstep : ∀ s lv s', lv ∈ group → getKey j s = getKey j r →
      procLoc name tier s lv.1 lv.2 = .ok s' → getKey j s' = getKey j r := by
    intro s lv s' hmem hs hp
    obtain ⟨ha4, hb4, hc4, hd4⟩ := h4 lv hmem
    rw [procLoc_frame hp h1 ha4 hb4 hc4 hd4]
    exact hs
  have h3' := foldE_inv (fun s => getKey j s = getKey j r) _ group hstep r3 r'
  apply h3'
  · rw [appendChild_ok_getKey_ne ha h3, getKey_setKey_ne h2, getKey_setKey_ne h1]
  · exact hb

/-!
## `buildResult` on well-shaped input
-/

theorem YamlMap.toList_ofList (l : List (String × Yaml)) :
    (YamlMap.ofList l).toList = l := by
  induction l with
  | nil => rfl
  | cons kv tl ih =>
      obtain ⟨k, v⟩ := kv
      simp [YamlMap.ofList, YamlMap.toList, ih]

theorem foldE_map (f : Res → β → Except PyError Res) (e : α → β)
    (l : List α) (r : Res) :
    foldE f r (l.map e) = foldE (fun r x => f r (e x)) r l := by
  induction l generalizing r with
  | nil => rfl
  | cons x xs ih =>
      cases h : f r (e x) with
      | error er => simp [foldE, h]
      | ok r' => simp [foldE, h, ih]

theorem procTier_map (name : String) (r : Res) (tier : String)
    (g : List (String × Yaml)) :
    procTier name r tier (.map (YamlMap.ofList g)) = procTierI name r tier g := by
  unfold procTier procTierI
  cases h : appendChild name tier
      (setKey (name ++ "-" ++ tier) (.children [tier])
        (setKey tier (.children []) r)) with
  | error e => simp [h]
  | ok r3 => simp [h, YamlMap.toList_ofList]

/-- The loop of `parse_inventory`, on a well-shaped two-level inventory, is
exactly `expandData`. -/
theorem buildResult_invToYaml (name : String) (data : SrcInv) :
    buildResult name (invToYaml data) = expandData name data := by
  have hfun : (fun (r : Res) (tg : String × List (String × Yaml)) =>
      procTier name r tg.1 (Yaml.map (YamlMap.ofList tg.2))) =
      fun (r : Res) tg => procTierI name r tg.1 tg.2 := by
    funext r tg
    exact procTier_map name r tg.1 tg.2
  simp only [buildResult, invToYaml, expandData, YamlMap.toList_ofList, foldE_map]
  rw [hfun]

/-!
## The `_meta` invariant
-/

theorem procLoc_meta (hk : procLoc name tier r loc hosts = .ok r')
    (ht : tier ≠ "_meta") (hm : getKey "_meta" r = some .meta) :
    getKey "_meta" r' = some .meta := by
  obtain ⟨r1, r4, ha, ⟨r3, hb, hc⟩, rfl⟩ := procLoc_ok_elim hk
  rw [getKey_setKey_ne (meta_ne_dashed _ _).symm,
    getKey_setKey_ne (meta_ne_dashed _ _).symm]
  apply locUpdate_meta hc
  rw [appendChild_ok_getKey_ne hb (meta_ne_dashed _ _).symm]
  have hif : getKey "_meta" (if hasKey (name ++ "-" ++ loc) r1 then r1
      else setKey (name ++ "-" ++ loc) (.children []) r1) = getKey "_meta" r1 := by
    split
    · rfl
    · exact getKey_setKey_ne (meta_ne_dashed _ _).symm _ _
  rw [hif, appendChild_ok_getKey_ne ha ht]
  exact hm

theorem procTier_ok_elim (hk : procTier name r tier group = .ok r') :
    ∃ kvs r3, group = .map kvs ∧
      appendChild name tier
        (setKey (name ++ "-" ++ tier) (.children [tier])
          (setKey tier (.children []) r)) = .ok r3 ∧
      foldE (fun r lv => procLoc name tier r lv.1 lv.2) r3 kvs.toList = .ok r' := by
  unfold procTier at hk
  split at hk
  · cases hk
  · next r3 h3 =>
      split at hk
      · next kvs => exact ⟨kvs, r3, rfl, h3, hk⟩
      · cases hk

theorem procTier_meta (hk : procTier name r tier group = .ok r')
    (ht : tier ≠ "_meta") (hn : name ≠ "_meta")
    (hm : getKey "_meta" r = some .meta) :
    getKey "_meta" r' = some .meta := by
  obtain ⟨kvs, r3, rfl, ha, hb⟩ := procTier_ok_elim hk
  have h3 : getKey "_meta" r3 = some .meta := by
    rw [appendChild_ok_getKey_ne ha hn, getKey_setKey_ne (meta_ne_dashed _ _).symm,
      getKey_setKey_ne ht]
    exact hm
  exact foldE_inv (fun s => getKey "_meta" s = some .meta) _ kvs.toList
    (fun s lv s' _ hp hstep => procLoc_meta hstep ht hp) r3 r' h3 hb

/-!
## Helper predicates and example inputs for the claims
-/

def isOkE : Except PyError String → Bool
  | .ok _ => true
  | .error _ => false

def isYamlMap : Yaml → Bool
  | .map _ => true
  | _ => false

/-- The concrete scenario of the spec: `{ web: { us: [h1, h2], eu: [h3] },
db: { us: [h4] } }` read from `prod.yml`. -/
def c1data : SrcInv :=
  [("web", [("us", yhosts ["h1", "h2"]), ("eu", yhosts ["h3"])]),
   ("db", [("us", yhosts ["h4"])])]

/-- A small well-formed inventory shared by several witnesses: two tiers
referencing the same location. -/
def wData : SrcInv :=
  [("t1", [("l1", yhosts ["h"])]), ("t2", [("l1", yhosts ["h2"])])]

/-- The expansion of `wData` under inventory name `n` (checked by `rfl`
against `expandData` in the witnesses). -/
def wRes : Res :=
  [("_meta", .meta),
   ("n", .children ["t1", "t2"]),
   ("t1", .children ["t1-l1"]),
   ("n-t1", .children ["t1"]),
   ("n-l1", .children ["t1-l1", "t2-l1"]),
   ("l1", .children ["n-l1"]),
   ("t1-l1", .hosts (yhosts ["h"])),
   ("n-t1-l1", .children ["t1-l1"]),
   ("t2", .children ["t2-l1"]),
   ("n-t2", .children ["t2"]),
   ("t2-l1", .hosts (yhosts ["h2"])),
   ("n-t2-l1", .children ["t2-l1"])]

/-!
## Claim C1
-/

/-- The expansion of `c1data` under inventory name `prod` (checked by
`rfl` against `buildResult` in the C1 theorem). -/
def c1res : Res :=
  [("_meta", .meta),
   ("prod", .children ["web", "db"]),
   ("web", .children ["web-us", "web-eu"]),
   ("prod-web", .children ["web"]),
   ("prod-us", .children ["web-us", "db-us"]),
   ("us", .children ["prod-us"]),
   ("web-us", .hosts (yhosts ["h1", "h2"])),
   ("prod-web-us", .children ["web-us"]),
   ("prod-eu", .children ["web-eu"]),
   ("eu", .children ["prod-eu"]),
   ("web-eu", .hosts (yhosts ["h3"])),
   ("prod-web-eu", .children ["web-eu"]),
   ("db", .children ["db-us"]),
   ("prod-db", .children ["db"]),
   ("db-us", .hosts (yhosts ["h4"])),
   ("prod-db-us", .children ["db-us"])]

/-- C1 (confirmed): for the source inventory
`{ web: { us: [h1, h2], eu: [h3] }, db: { us: [h4] } }` read from a file
named `prod.yml`, the expansion contains the groups `prod` with children
`{db, web}`, `web` with children `[web-us, web-eu]`, `web-us` with hosts
`[h1, h2]`, `us` with children `[prod-us]`, `prod-us` with children
`[web-us, db-us]`, `prod-web` with children `[web]` and `prod-web-us` with
children `[web-us]` (children lists stated up to permutation, since the
spec treats children as sets and a Python dict iterates in unspecified
order). -/
theorem c1_concrete_scenario :
    ∃ res, buildResult (deriveName "prod.yml") (invToYaml c1data) = .ok res ∧
      (∃ cs, getKey "prod" res = some (.children cs) ∧ cs.Perm ["db", "web"]) ∧
      (∃ cs, getKey "web" res = some (.children cs) ∧
        cs.Perm ["web-us", "web-eu"]) ∧
      getKey "web-us" res = some (.hosts (yhosts ["h1", "h2"])) ∧
      (∃ cs, getKey "us" res = some (.children cs) ∧ cs.Perm ["prod-us"]) ∧
      (∃ cs, getKey "prod-us" res = some (.children cs) ∧
        cs.Perm ["web-us", "db-us"]) ∧
      (∃ cs, getKey "prod-web" res = some (.children cs) ∧ cs.Perm ["web"]) ∧
      (∃ cs, getKey "prod-web-us" res = some (.children cs) ∧
        cs.Perm ["web-us"]) := by
  refine ⟨c1res, rfl, ⟨["web", "db"], rfl, by decide⟩,
    ⟨["web-us", "web-eu"], rfl, by decide⟩, rfl,
    ⟨["prod-us"], rfl, by decide⟩,
    ⟨["web-us", "db-us"], rfl, by decide⟩,
    ⟨["web"], rfl, by decide⟩,
    ⟨["web-us"], rfl, by decide⟩⟩

/-!
## Claim C5
-/

/-- The top-level keys (tiers) of a loaded YAML document. -/
def yamlTiers : Yaml → List String
  | .map kvs => kvs.toList.map Prod.fst
  | _ => []

def c5badData : SrcInv := [("_meta", [("l", yhosts ["h"])])]

def c5badRes : Res :=
  [("_meta", .children ["_meta-l"]),
   ("n", .children ["_meta"]),
   ("n-_meta", .children ["_meta"]),
   ("n-l", .children ["_meta-l"]),
   ("l", .children ["n-l"]),
   ("_meta-l", .hosts (yhosts ["h"])),
   ("n-_meta-l", .children ["_meta-l"])]

def c5nameData : SrcInv := [("t", [("l", yhosts ["h"])])]

def c5nameRes : Res :=
  [("_meta", .children ["t"]),
   ("t", .children ["t-l"]),
   ("_meta-t", .children ["t"]),
   ("_meta-l", .children ["t-l"]),
   ("l", .children ["_meta-l"]),
   ("t-l", .hosts (yhosts ["h"])),
   ("_meta-t-l", .children ["t-l"])]

/-- C5 (counterexample): the claim "the output group graph always contains
a top-level `_meta` entry whose `hostvars` value is an empty mapping" fails
when a tier is named `_meta` (line 99 replaces the reserved entry with a
fresh children group) and also when the inventory file itself is named
`_meta` (the later key of the seed dict literal wins). -/
theorem c5_counterexample :
    buildResult "n" (invToYaml c5badData) = .ok c5badRes ∧
    getKey "_meta" c5badRes = some (.children ["_meta-l"]) ∧
    some (GroupDesc.children ["_meta-l"]) ≠ some GroupDesc.meta ∧
    buildResult "_meta" (invToYaml c5nameData) = .ok c5nameRes ∧
    getKey "_meta" c5nameRes = some (.children ["t"]) := by
  refine ⟨rfl, rfl, by simp, rfl, rfl⟩

/-- C5 (corrected): for every input whose expansion produces output, the
group graph contains the `_meta` entry with its empty `hostvars` mapping,
provided the inventory name is not `_meta` and no tier is named `_meta`
(a location named `_meta` can never produce output: line 131 raises
`KeyError`). -/
theorem c5_meta_hostvars (name : String) (data : Yaml) (res : Res)
    (hn : name ≠ "_meta") (ht : "_meta" ∉ yamlTiers data)
    (hok : buildResult name data = .ok res) :
    getKey "_meta" res = some .meta := by
  cases data with
  | map m =>
      have hbase : getKey "_meta" (initRes name) = some .meta := by
        unfold initRes
        rw [getKey_setKey_ne hn]
        rfl
      refine foldE_inv (fun s => getKey "_meta" s = some .meta) _ m.toList
        (fun s tg s' hmem hp hstep => procTier_meta hstep ?_ hn hp)
        (initRes name) res hbase hok
      intro h
      exact ht (h ▸ List.mem_map_of_mem Prod.fst hmem)
  | str s => exact absurd hok (by simp [buildResult])
  | int n => exact absurd hok (by simp [buildResult])
  | null => exact absurd hok (by simp [buildResult])
  | seq xs => exact absurd hok (by simp [buildResult])

/-- C5 witness: the amended theorem applied to a concrete well-formed
inventory. -/
theorem c5_meta_hostvars_witness : getKey "_meta" wRes = some .meta :=
  c5_meta_hostvars "n" (invToYaml wData) wRes (by decide) (by decide) rfl

/-!
## Claim C7
-/

def c7env : String → Option String := fun k =>
  if k = "URL" then some "git@example.org:inv.git"
  else if k = "INVENTORY" then some "hosts.yml" else none

def c7args : CliArgs :=
  { url := "cli-url", inventory := "cli-inventory", sshkey := none,
    commit := none }

/-- C7 (counterexample): the claim says the environment takes precedence
exactly when all THREE required environment variables are present and
non-empty; but with only `URL` and `INVENTORY` set (neither `SSHKEY` nor
`COMMIT` present — so no possible third variable is present) the source
still resolves from the environment. -/
theorem c7_counterexample :
    useEnvironment c7env = true ∧
    c7env "SSHKEY" = none ∧ c7env "COMMIT" = none ∧
    resolveConfig c7env c7args = envConfig c7env ∧
    envConfig c7env ≠ cliConfig c7args := by
  refine ⟨rfl, rfl, rfl, rfl, by decide⟩

/-- C7 (corrected): invocation inputs are resolved from environment
variables or command-line arguments, the environment taking precedence
exactly when the TWO required environment variables `URL` and `INVENTORY`
are both present and non-empty; otherwise the command-line path is used. -/
theorem c7_env_cli_resolution (env : String → Option String) (args : CliArgs) :
    resolveConfig env args =
      if envTruthy (env "URL") && envTruthy (env "INVENTORY") then envConfig env
      else cliConfig args := by
  unfold resolveConfig useEnvironment
  cases hu : env "URL" with
  | none => simp [envTruthy, hu]
  | some u =>
      cases hi : env "INVENTORY" with
      | none => simp [envTruthy, hu, hi]
      | some i => simp [envTruthy, hu, hi]

/-!
## Claim C8
-/

/-- C8 (confirmed): for every relative path whose resolved file does not
exist in the snapshot, `parse_inventory` fails with the not-found
`IOError`, whose message is literally
`Inventory file "<path>" not found in repository` (so it includes the
requested relative path), and no JSON output is produced. -/
theorem c8_missing_file (fs : String → Option (Except String Yaml))
    (path : String) (hmiss : fs path = none) :
    parse_inventory fs path = .error (.ioError (notFoundMsg path)) ∧
    notFoundMsg path =
      "Inventory file \x22" ++ path ++ "\x22 not found in repository" ∧
    isOkE (parse_inventory fs path) = false := by
  have h1 : parse_inventory fs path = .error (.ioError (notFoundMsg path)) := by
    unfold parse_inventory
    rw [hmiss]
  exact ⟨h1, rfl, by rw [h1]; rfl⟩

/-- C8 witness: a concrete empty snapshot and path. -/
theorem c8_missing_file_witness :
    parse_inventory (fun _ => none) "hosts/prod.yml" =
      .error (.ioError (notFoundMsg "hosts/prod.yml")) ∧
    notFoundMsg "hosts/prod.yml" =
      "Inventory file \x22" ++ "hosts/prod.yml" ++ "\x22 not found in repository" ∧
    isOkE (parse_inventory (fun _ => none) "hosts/prod.yml") = false :=
  c8_missing_file (fun _ => none) "hosts/prod.yml" rfl

/-!
## Claim C9
-/

theorem procTier_err_nonmap (name tier : String) (g : Yaml)
    (hg : isYamlMap g = false) :
    ∀ r, ∃ e, procTier name r tier g = .error e := by
  intro r
  unfold procTier
  cases h : appendChild name tier
      (setKey (name ++ "-" ++ tier) (.children [tier])
        (setKey tier (.children []) r)) with
  | error e => exact ⟨e, rfl⟩
  | ok r3 =>
      cases g with
      | map kvs => simp [isYamlMap] at hg
      | str s => exact ⟨.attrError "iteritems", rfl⟩
      | int n => exact ⟨.attrError "iteritems", rfl⟩
      | null => exact ⟨.attrError "iteritems", rfl⟩
      | seq xs => exact ⟨.attrError "iteritems", rfl⟩

/-- C9 (corrected): `parse_inventory` fails when the file's content is not
valid YAML (with the parser's error), when the document's top level is not
a mapping (e.g. a sequence, a scalar, or the empty document, which loads
as `None` — an `AttributeError` at `iteritems`), or when some tier's value
is not a mapping (an error is raised once iteration encounters it, or
earlier).  Host values at the third level are NOT validated (see the
counterexample), so only the top two levels of the
mapping-of-mappings-of-sequences shape are enforced. -/
theorem c9_parse_failures (fs : String → Option (Except String Yaml))
    (path : String) :
    (∀ msg, fs path = some (.error msg) →
      parse_inventory fs path = .error (.yamlError msg)) ∧
    (∀ y, fs path = some (.ok y) → isYamlMap y = false →
      parse_inventory fs path = .error (.attrError "iteritems")) ∧
    (∀ m tg, fs path = some (.ok (.map m)) → tg ∈ m.toList →
      isYamlMap tg.2 = false → ∃ e, parse_inventory fs path = .error e) := by
  refine ⟨?_, ?_, ?_⟩
  · intro msg h
    unfold parse_inventory
    rw [h]
  · intro y h hy
    unfold parse_inventory
    rw [h]
    cases y with
    | map kvs => simp [isYamlMap] at hy
    | str s => rfl
    | int n => rfl
    | null => rfl
    | seq xs => rfl
  · intro m tg h htg hbad
    obtain ⟨e, he⟩ := foldE_error_of_mem
      (fun r tg => procTier (deriveName path) r tg.1 tg.2) m.toList tg htg
      (fun r => procTier_err_nonmap (deriveName path) tg.1 tg.2 hbad r)
      (initRes (deriveName path))
    refine ⟨e, ?_⟩
    unfold parse_inventory
    rw [h]
    simp only [buildResult, he]

/-- A snapshot whose only file parses but has a scalar at the third
level: not of the mapping-of-mappings-of-sequences shape. -/
def c9okFs : String → Option (Except String Yaml) := fun p =>
  if p = "inv.yml" then
    some (.ok (.map (.cons "t" (.map (.cons "l" (.str "x") .nil)) .nil)))
  else none

/-- C9 (counterexample): a document whose third level is a scalar (so the
document does NOT have the mapping-of-mappings-of-sequences shape) is
accepted: `parse_inventory` succeeds, because host values are passed
through opaquely with no validation.  The claim that every such document
fails with a parse/structure error is therefore false. -/
theorem c9_counterexample :
    c9okFs "inv.yml" =
      some (.ok (.map (.cons "t" (.map (.cons "l" (.str "x") .nil)) .nil))) ∧
    isYamlMap (.str "x") = false ∧
    isOkE (parse_inventory c9okFs "inv.yml") = true := by
  refine ⟨rfl, rfl, rfl⟩

/-- C9 witness: the amended theorem applied to three concrete failing
snapshots — an invalid-YAML file, a top-level sequence, and a tier whose
value is a scalar. -/
theorem c9_parse_failures_witness :
    parse_inventory (fun _ => some (.error "bad yaml")) "inv.yml" =
      .error (.yamlError "bad yaml") ∧
    parse_inventory (fun _ => some (.ok (.seq .nil))) "inv.yml" =
      .error (.attrError "iteritems") ∧
    ∃ e, parse_inventory
      (fun _ => some (.ok (.map (.cons "t" (.str "x") .nil)))) "inv.yml" =
        .error e := by
  refine ⟨?_, ?_, ?_⟩
  · exact (c9_parse_failures (fun _ => some (.error "bad yaml")) "inv.yml").1
      "bad yaml" rfl
  · exact (c9_parse_failures (fun _ => some (.ok (.seq .nil))) "inv.yml").2.1
      (.seq .nil) rfl rfl
  · exact (c9_parse_failures
      (fun _ => some (.ok (.map (.cons "t" (.str "x") .nil)))) "inv.yml").2.2
      (.cons "t" (.str "x") .nil) ("t", .str "x") rfl (by simp [YamlMap.toList]) rfl

/-!
## Claim C10
-/

def c10aData : SrcInv := [("t1", [("x", yhosts ["h"])])]

def c10aRes : Res :=
  [("_meta", .meta),
   ("n", .children ["t1"]),
   ("t1", .children ["t1-x"]),
   ("n-t1", .children ["t1"]),
   ("n-x", .children ["t1-x"]),
   ("x", .children ["n-x"]),
   ("t1-x", .hosts (yhosts ["h"])),
   ("n-t1-x", .children ["t1-x"])]

def c10bData : SrcInv :=
  [("t1", [("x", yhosts ["h"])]), ("x", [("y", yhosts ["h2"])])]

def c10bRes : Res :=
  [("_meta", .meta),
   ("n", .children ["t1", "x"]),
   ("t1", .children ["t1-x"]),
   ("n-t1", .children ["t1"]),
   ("n-x", .children ["x"]),
   ("x", .children ["x-y"]),
   ("t1-x", .hosts (yhosts ["h"])),
   ("n-t1-x", .children ["t1-x"]),
   ("n-y", .children ["x-y"]),
   ("y", .children ["n-y"]),
   ("x-y", .hosts (yhosts ["h2"])),
   ("n-x-y", .children ["x-y"])]

/-- C10 (confirmed): group names already present in the result are
unconditionally replaced by a fresh `{children: []}` descriptor when the
same name is later processed as a tier, silently discarding previously
accumulated children.  Concretely: after tier `t1` alone, the location
group `x` holds children `[n-x]`; when tier `x` is processed afterwards,
the final group `x` holds children `[x-y]` and the accumulated child `n-x`
is gone (its inventory-location group `n-x` is likewise overwritten by the
inv-tier write).  The `_meta` entry is clobbered the same way when a tier
is named `_meta` (see `c5badRes`: `_meta` ends as a children group). -/
theorem c10_group_overwrite :
    buildResult "n" (invToYaml c10aData) = .ok c10aRes ∧
    getKey "x" c10aRes = some (.children ["n-x"]) ∧
    buildResult "n" (invToYaml c10bData) = .ok c10bRes ∧
    getKey "x" c10bRes = some (.children ["x-y"]) ∧
    ("n-x" ∈ (["n-x"] : List String)) ∧ ("n-x" ∉ (["x-y"] : List String)) ∧
    buildResult "n" (invToYaml c5badData) = .ok c5badRes ∧
    getKey "_meta" c5badRes = some (.children ["_meta-l"]) := by
  refine ⟨rfl, rfl, rfl, rfl, by decide, by decide, rfl, rfl⟩

/-!
## Claim C3
-/

/-- C3's freshness condition: the inventory name is not a tier, not a
location, and not a derived tier-location name. -/
def NameFresh (name : String) (data : SrcInv) : Prop :=
  ∀ tg ∈ data, tg.1 ≠ name ∧
    ∀ lv ∈ tg.2, lv.1 ≠ name ∧ tg.1 ++ "-" ++ lv.1 ≠ name

instance NameFresh.dec (name : String) (data : SrcInv) :
    Decidable (NameFresh name data) := by
  unfold NameFresh
  infer_instance

/-- One tier iteration appends exactly its tier to the root group's
children, provided the name collides with none of the keys it writes. -/
theorem procTierI_root (hk : procTierI name r tier group = .ok r')
    (ht : tier ≠ name)
    (hl : ∀ lv ∈ group, lv.1 ≠ name ∧ tier ++ "-" ++ lv.1 ≠ name)
    (hroot : getKey name r = some (.children ts)) :
    getKey name r' = some (.children (ts ++ [tier])) := by
  obtain ⟨r3, ha, hb⟩ := procTierI_ok_elim hk
  have hpre : getKey name
      (setKey (name ++ "-" ++ tier) (.children [tier])
        (setKey tier (.children []) r)) = some (.children ts) := by
    rw [getKey_setKey_ne (dashed_ne_left name tier), getKey_setKey_ne ht]
    exact hroot
  obtain ⟨cs, hcs, hnew⟩ := appendChild_ok_getKey_self ha
  rw [hpre] at hcs
  injection hcs with hcs'
  injection hcs' with hcs''
  subst hcs''
  exact foldE_inv (fun s => getKey name s = some (.children (ts ++ [tier])))
    _ group
    (fun s lv s' hmem hp hstep => by
      show getKey name s' = some (.children (ts ++ [tier]))
      rw [procLoc_frame hstep ht (dashed_ne_left name lv.1) (hl lv hmem).1
        (hl lv hmem).2 (dashed_ne_left name (tier ++ "-" ++ lv.1))]
      exact hp)
    r3 r' hnew hb

/-- The root group accumulates exactly the processed tiers, in order. -/
theorem rootAccum (name : String) (d : SrcInv) :
    ∀ (r res : Res) (ts : List String),
      (∀ tg ∈ d, tg.1 ≠ name ∧
        ∀ lv ∈ tg.2, lv.1 ≠ name ∧ tg.1 ++ "-" ++ lv.1 ≠ name) →
      getKey name r = some (.children ts) →
      foldE (fun r tg => procTierI name r tg.1 tg.2) r d = .ok res →
      getKey name res = some (.children (ts ++ d.map Prod.fst)) := by
  induction d with
  | nil =>
      intro r res ts _ hr hok
      simp [foldE] at hok
      subst hok
      simpa using hr
  | cons tg d' ih =>
      intro r res ts hf hr hok
      cases hstep : procTierI name r tg.1 tg.2 with
      | error e => rw [foldE, hstep] at hok; cases hok
      | ok r2 =>
          rw [foldE_cons_ok hstep] at hok
          have hroot2 := procTierI_root hstep (hf tg (List.mem_cons_self _ _)).1
            (hf tg (List.mem_cons_self _ _)).2 hr
          have := ih r2 res (ts ++ [tg.1])
            (fun tg' h' => hf tg' (List.mem_cons_of_mem _ h')) hroot2 hok
          simpa [List.append_assoc] using this

/-- C3 (corrected): after a successful expansion, the root group's children
list is exactly the source's tier list (hence, with mapping semantics, the
distinct tier names with no duplicates, whatever the processing order) —
provided the inventory name does not collide with a tier, a location, or a
derived tier-location name; the counterexample shows each collision breaks
the claim. -/
theorem c3_root_children (name : String) (data : SrcInv) (res : Res)
    (hf : NameFresh name data) (hnd : (data.map Prod.fst).Nodup)
    (hok : buildResult name (invToYaml data) = .ok res) :
    getKey name res = some (.children (data.map Prod.fst)) ∧
    (data.map Prod.fst).Nodup := by
  rw [buildResult_invToYaml] at hok
  have hbase : getKey name (initRes name) = some (.children []) :=
    getKey_setKey_self _ _ _
  have := rootAccum name data (initRes name) res [] hf hbase hok
  simpa using ⟨this, hnd⟩

/-- C3 witness: the amended theorem applied to a concrete inventory. -/
theorem c3_root_children_witness :
    getKey "n" wRes = some (.children (wData.map Prod.fst)) ∧
    (wData.map Prod.fst).Nodup :=
  c3_root_children "n" wData wRes (by decide) (by decide) rfl

def c3aData : SrcInv :=
  [("a", [("l1", yhosts ["h"])]), ("n", [("l2", yhosts ["h"])]),
   ("b", [("l3", yhosts ["h"])])]

def c3aRes : Res :=
  [("_meta", .meta),
   ("n", .children ["n", "n-l2", "b"]),
   ("a", .children ["a-l1"]),
   ("n-a", .children ["a"]),
   ("n-l1", .children ["a-l1"]),
   ("l1", .children ["n-l1"]),
   ("a-l1", .hosts (yhosts ["h"])),
   ("n-a-l1", .children ["a-l1"]),
   ("n-n", .children ["n"]),
   ("n-l2", .hosts (yhosts ["h"])),
   ("l2", .children ["n-l2"]),
   ("n-n-l2", .children ["n-l2"]),
   ("b", .children ["b-l3"]),
   ("n-b", .children ["b"]),
   ("n-l3", .children ["b-l3"]),
   ("l3", .children ["n-l3"]),
   ("b-l3", .hosts (yhosts ["h"])),
   ("n-b-l3", .children ["b-l3"])]

def c3bData : SrcInv := [("t", [("n", yhosts ["h"])])]

def c3bRes : Res :=
  [("_meta", .meta),
   ("n", .children ["t", "n-n"]),
   ("t", .children ["t-n"]),
   ("n-t", .children ["t"]),
   ("n-n", .children ["t-n"]),
   ("t-n", .hosts (yhosts ["h"])),
   ("n-t-n", .children ["t-n"])]

def c3cData : SrcInv := [("t", [("l", yhosts ["h"])])]

def c3cRes : Res :=
  [("_meta", .meta),
   ("t-l", .hosts (yhosts ["h"])),
   ("t", .children ["t-l"]),
   ("t-l-t", .children ["t"]),
   ("t-l-l", .children ["t-l"]),
   ("l", .children ["t-l-l"]),
   ("t-l-t-l", .children ["t-l"])]

/-- C3 (counterexample): the root group's children are NOT always the
distinct tiers.  (i) a tier equal to the inventory name `n` resets the
root group, losing the earlier tier `a` and adding the stray `n-l2`;
(ii) a location equal to the inventory name makes the dedup branch append
`n-n` to the root's children; (iii) a derived tier-location name equal to
the inventory name (file `t-l.yml`, tier `t`, location `l`) overwrites the
root group with a hosts descriptor, so it has no children at all. -/
theorem c3_counterexample :
    buildResult "n" (invToYaml c3aData) = .ok c3aRes ∧
    getKey "n" c3aRes = some (.children ["n", "n-l2", "b"]) ∧
    "a" ∈ c3aData.map Prod.fst ∧ "a" ∉ (["n", "n-l2", "b"] : List String) ∧
    buildResult "n" (invToYaml c3bData) = .ok c3bRes ∧
    getKey "n" c3bRes = some (.children ["t", "n-n"]) ∧
    "n-n" ∉ c3bData.map Prod.fst ∧ "n-n" ∈ (["t", "n-n"] : List String) ∧
    buildResult "t-l" (invToYaml c3cData) = .ok c3cRes ∧
    getKey "t-l" c3cRes = some (.hosts (yhosts ["h"])) := by
  exact ⟨rfl, rfl, by decide, by decide, rfl, rfl, by decide, by decide,
    rfl, rfl⟩

/-!
## Claim C4
-/

/-- The location-group invariant for a fixed plain location name `l`:
group `l` either does not exist yet or holds exactly `[name-l]`. -/
def LocInv (name l : String) (r : Res) : Prop :=
  getKey l r = none ∨ getKey l r = some (.children [name ++ "-" ++ l])

/-- One location iteration's effect on the group of a fixed plain location
name `l`: the invariant is preserved, is established when this iteration's
location IS `l`, and the established state is stable. -/
theorem procLoc_locGroup (hk : procLoc name tier r loc hosts = .ok r')
    (hplain : plainStr l) (htier : tier ≠ l)
    (hinv : LocInv name l r) :
    LocInv name l r' ∧
    (loc = l → getKey l r' = some (.children [name ++ "-" ++ l])) ∧
    (getKey l r = some (.children [name ++ "-" ++ l]) →
      getKey l r' = some (.children [name ++ "-" ++ l])) := by
  obtain ⟨r1, r4, ha, ⟨r3, hb, hc⟩, rfl⟩ := procLoc_ok_elim hk
  unfold LocInv at hinv ⊢
  have hout : ∀ s : Res, getKey l
      (setKey (name ++ "-" ++ (tier ++ "-" ++ loc))
        (.children [tier ++ "-" ++ loc])
        (setKey (tier ++ "-" ++ loc) (.hosts hosts) s)) = getKey l s := by
    intro s
    rw [getKey_setKey_ne (plain_ne_dashed hplain _ _).symm,
      getKey_setKey_ne (plain_ne_dashed hplain _ _).symm]
  have h3 : getKey l r3 = getKey l r := by
    rw [appendChild_ok_getKey_ne hb (plain_ne_dashed hplain _ _).symm]
    have hif : getKey l (if hasKey (name ++ "-" ++ loc) r1 then r1
        else setKey (name ++ "-" ++ loc) (.children []) r1) = getKey l r1 := by
      split
      · rfl
      · exact getKey_setKey_ne (plain_ne_dashed hplain _ _).symm _ _
    rw [hif, appendChild_ok_getKey_ne ha htier]
  by_cases hloc : loc = l
  · subst hloc
    rcases hinv with hnone | hone
    · have hspec : locUpdate loc (name ++ "-" ++ loc) r3 =
          .ok (setKey loc (.children [name ++ "-" ++ loc]) r3) :=
        locUpdate_none (by rw [h3]; exact hnone)
      rw [hspec] at hc
      injection hc with hc4
      have hl4 : getKey loc r4 = some (.children [name ++ "-" ++ loc]) := by
        rw [← hc4, getKey_setKey_self]
      refine ⟨Or.inr ?_, fun _ => ?_, fun hsome => ?_⟩
      · rw [hout]; exact hl4
      · rw [hout]; exact hl4
      · rw [hnone] at hsome; cases hsome
    · have hspec : locUpdate loc (name ++ "-" ++ loc) r3 = .ok r3 :=
        locUpdate_mem (by rw [h3]; exact hone) (List.mem_singleton_self _)
      rw [hspec] at hc
      injection hc with hc4
      have hl4 : getKey loc r4 = some (.children [name ++ "-" ++ loc]) := by
        rw [← hc4, h3]; exact hone
      exact ⟨Or.inr (by rw [hout]; exact hl4), fun _ => by rw [hout]; exact hl4,
        fun _ => by rw [hout]; exact hl4⟩
  · have h4 : getKey l r4 = getKey l r3 := locUpdate_ok_getKey_ne hc hloc
    refine ⟨?_, fun he => absurd he hloc, ?_⟩
    · rw [hout, h4, h3]
      exact hinv
    · intro hsome
      rw [hout, h4, h3]
      exact hsome

/-- One tier iteration's effect on the group of a fixed plain location
name `l` (that is neither this tier nor the inventory name). -/
theorem procTierI_locGroup (hk : procTierI name r tier group = .ok r')
    (hplain : plainStr l) (htier : tier ≠ l) (hname : name ≠ l)
    (hinv : LocInv name l r) :
    LocInv name l r' ∧
    (l ∈ group.map Prod.fst →
      getKey l r' = some (.children [name ++ "-" ++ l])) ∧
    (getKey l r = some (.children [name ++ "-" ++ l]) →
      getKey l r' = some (.children [name ++ "-" ++ l])) := by
  obtain ⟨r3, ha, hb⟩ := procTierI_ok_elim hk
  have h3 : getKey l r3 = getKey l r := by
    rw [appendChild_ok_getKey_ne ha hname,
      getKey_setKey_ne (plain_ne_dashed hplain _ _).symm, getKey_setKey_ne htier]
  have hinv3 : LocInv name l r3 := by
    unfold LocInv at hinv ⊢
    rw [h3]
    exact hinv
  have hpres : ∀ (g : List (String × Yaml)) (s res : Res), LocInv name l s →
      foldE (fun r lv => procLoc name tier r lv.1 lv.2) s g = .ok res →
      LocInv name l res := by
    intro g s res hs hfold
    exact foldE_inv (LocInv name l) _ g
      (fun s lv s' hmem hp hstep => (procLoc_locGroup hstep hplain htier hp).1)
      s res hs hfold
  have hstable : ∀ (g : List (String × Yaml)) (s res : Res),
      getKey l s = some (.children [name ++ "-" ++ l]) →
      foldE (fun r lv => procLoc name tier r lv.1 lv.2) s g = .ok res →
      getKey l res = some (.children [name ++ "-" ++ l]) := by
    intro g s res hs hfold
    exact foldE_inv
      (fun s => getKey l s = some (.children [name ++ "-" ++ l])) _ g
      (fun s lv s' hmem hp hstep =>
        (procLoc_locGroup hstep hplain htier (Or.inr hp)).2.2 hp)
      s res hs hfold
  refine ⟨hpres group r3 r' hinv3 hb, ?_, ?_⟩
  · intro hmem
    obtain ⟨lv, hlv, hlveq⟩ := List.mem_map.1 hmem
    obtain ⟨g1, g2, rfl⟩ := List.append_of_mem hlv
    obtain ⟨mid, hm1, hm2⟩ := (foldE_append_ok _ _ _ _ _).1 hb
    cases hstep : procLoc name tier mid lv.1 lv.2 with
    | error e => rw [foldE, hstep] at hm2; cases hm2
    | ok mid2 =>
        rw [foldE_cons_ok hstep] at hm2
        have hmid : LocInv name l mid := hpres g1 r3 mid hinv3 hm1
        have hset := (procLoc_locGroup hstep hplain htier hmid).2.1 hlveq
        exact hstable g2 mid2 r' hset hm2
  · intro hsome
    have hsome3 : getKey l r3 = some (.children [name ++ "-" ++ l]) := by
      rw [h3]
      exact hsome
    exact hstable group r3 r' hsome3 hb

/-- C4 (corrected): for every location `l` referenced by two or more
distinct tiers, the location group `l`'s children contain `name-l` exactly
once, provided `l` contains no delimiter, differs from the inventory name
and `_meta`, and is not itself a tier name; in fact the children list is
exactly `[name-l]`. -/
theorem c4_loc_dedup (name : String) (data : SrcInv) (res : Res) (l : String)
    (hplain : plainStr l) (hname : name ≠ l) (hmeta : l ≠ "_meta")
    (htier : l ∉ data.map Prod.fst)
    (href : 2 ≤ data.countP (fun tg => decide (l ∈ tg.2.map Prod.fst)))
    (hok : buildResult name (invToYaml data) = .ok res) :
    ∃ cs, getKey l res = some (.children cs) ∧
      cs.count (name ++ "-" ++ l) = 1 := by
  rw [buildResult_invToYaml] at hok
  have hbase : LocInv name l (initRes name) := by
    left
    unfold initRes
    rw [getKey_setKey_ne hname]
    simp [getKey, Ne.symm hmeta]
  have hpos : 0 < data.countP (fun tg => decide (l ∈ tg.2.map Prod.fst)) := by
    omega
  obtain ⟨tg, htg, hp⟩ := List.countP_pos_iff.1 hpos
  have hmemloc : l ∈ tg.2.map Prod.fst := of_decide_eq_true hp
  obtain ⟨d1, d2, rfl⟩ := List.append_of_mem htg
  unfold expandData at hok
  obtain ⟨mid, h1, h2⟩ := (foldE_append_ok _ _ _ _ _).1 hok
  have hmid : LocInv name l mid := by
    refine foldE_inv (LocInv name l) _ d1 (fun s tg' s' hmem' hp' hstep' =>
      (procTierI_locGroup hstep' hplain ?_ hname hp').1)
      (initRes name) mid hbase h1
    intro he
    exact htier (he ▸ List.mem_map_of_mem Prod.fst
      (List.mem_append_left _ hmem'))
  cases hstep : procTierI name mid tg.1 tg.2 with
  | error e => rw [foldE, hstep] at h2; cases h2
  | ok mid2 =>
      rw [foldE_cons_ok hstep] at h2
      have httier : tg.1 ≠ l := by
        intro he
        exact htier (he ▸ List.mem_map_of_mem Prod.fst
          (List.mem_append_right _ (List.mem_cons_self _ _)))
      have hset := (procTierI_locGroup hstep hplain httier hname hmid).2.1 hmemloc
      have hfin : getKey l res = some (.children [name ++ "-" ++ l]) := by
        refine foldE_inv
          (fun s => getKey l s = some (.children [name ++ "-" ++ l])) _ d2
          (fun s tg' s' hmem' hp' hstep' =>
            (procTierI_locGroup hstep' hplain ?_ hname (Or.inr hp')).2.2 hp')
          mid2 res hset h2
        intro he
        exact htier (he ▸ List.mem_map_of_mem Prod.fst
          (List.mem_append_right _ (List.mem_cons_of_mem _ hmem')))
      exact ⟨[name ++ "-" ++ l], hfin, by simp⟩

/-- C4 witness: `l1` is referenced by both tiers of `wData` and its group
holds `n-l1` exactly once. -/
theorem c4_loc_dedup_witness :
    ∃ cs, getKey "l1" wRes = some (.children cs) ∧
      cs.count ("n" ++ "-" ++ "l1") = 1 :=
  c4_loc_dedup "n" wData wRes "l1" (by decide) (by decide) (by decide)
    (by decide) (by decide) rfl

def c4xData : SrcInv :=
  [("t1", [("n", yhosts ["h"])]), ("n-n", [("x", yhosts ["h2"])]),
   ("t2", [("n", yhosts ["h3"])])]

def c4xRes : Res :=
  [("_meta", .meta),
   ("n", .children ["t1", "n-n", "n-n", "t2"]),
   ("t1", .children ["t1-n"]),
   ("n-t1", .children ["t1"]),
   ("n-n", .children ["n-n-x", "t2-n"]),
   ("t1-n", .hosts (yhosts ["h"])),
   ("n-t1-n", .children ["t1-n"]),
   ("n-n-n", .children ["n-n"]),
   ("n-x", .children ["n-n-x"]),
   ("x", .children ["n-x"]),
   ("n-n-x", .hosts (yhosts ["h2"])),
   ("n-n-n-x", .children ["n-n-x"]),
   ("t2", .children ["t2-n"]),
   ("n-t2", .children ["t2"]),
   ("t2-n", .hosts (yhosts ["h3"])),
   ("n-t2-n", .children ["t2-n"])]

/-- C4 (counterexample): with inventory name `n`, location `n` (referenced
by the two distinct tiers `t1` and `t2`) and a tier named `n-n`, the
location group `n`'s children contain `n-n` TWICE: once appended by the
dedup branch of line 132, once appended by line 107 when the tier named
`n-n` is added to the root group (which is the same dict entry as location
group `n`). -/
theorem c4_counterexample :
    buildResult "n" (invToYaml c4xData) = .ok c4xRes ∧
    2 ≤ c4xData.countP (fun tg => decide ("n" ∈ tg.2.map Prod.fst)) ∧
    getKey "n" c4xRes = some (.children ["t1", "n-n", "n-n", "t2"]) ∧
    (["t1", "n-n", "n-n", "t2"] : List String).count ("n" ++ "-" ++ "n") = 2 := by
  exact ⟨rfl, by decide, rfl, by decide⟩

/-!
## Claim C2
-/

/-- Well-formedness for C2: the inventory name, tiers and locations are
plain (delimiter-free) names, no tier equals the inventory name, and tier
and per-tier location keys are free of duplicates (mapping semantics). -/
def WfInv (name : String) (data : SrcInv) : Prop :=
  plainStr name ∧ (data.map Prod.fst).Nodup ∧
    ∀ tg ∈ data, plainStr tg.1 ∧ tg.1 ≠ name ∧ (tg.2.map Prod.fst).Nodup ∧
      ∀ lv ∈ tg.2, plainStr lv.1

instance WfInv.dec (name : String) (data : SrcInv) :
    Decidable (WfInv name data) := by
  unfold WfInv
  infer_instance

/-- Part A of C2: under well-formedness, every `(tier, location, hosts)`
triple of the source ends up, unmodified, as the hosts value of the
`tier-loc` group. -/
theorem hostsExact (name : String) (data : SrcInv) (res : Res)
    (hwf : WfInv name data)
    (hok : expandData name data = .ok res) :
    ∀ tg ∈ data, ∀ lv ∈ tg.2,
      getKey (tg.1 ++ "-" ++ lv.1) res = some (.hosts lv.2) := by
  obtain ⟨hpn, hnd, hmem⟩ := hwf
  intro tg htg lv hlv
  obtain ⟨t, g⟩ := tg
  obtain ⟨l, h⟩ := lv
  obtain ⟨hpt, htn, hlnd, hlp⟩ := hmem (t, g) htg
  replace hpt : plainStr t := hpt
  replace htn : t ≠ name := htn
  replace hlnd : (g.map Prod.fst).Nodup := hlnd
  replace hlp : ∀ lv ∈ g, plainStr lv.1 := hlp
  obtain ⟨d1, d2, rfl⟩ := List.append_of_mem htg
  obtain ⟨g1, g2, rfl⟩ := List.append_of_mem hlv
  have hnotin2 : t ∉ d2.map Prod.fst := by
    rw [List.map_append, List.map_cons] at hnd
    exact (List.nodup_cons.1 (List.Nodup.of_append_right hnd)).1
  have hlnotin2 : l ∉ g2.map Prod.fst := by
    rw [List.map_append, List.map_cons] at hlnd
    exact (List.nodup_cons.1 (List.Nodup.of_append_right hlnd)).1
  unfold expandData at hok
  obtain ⟨mid, h1, h2⟩ := (foldE_append_ok _ _ _ _ _).1 hok
  cases hstep : procTierI name mid t (g1 ++ (l, h) :: g2) with
  | error e => rw [foldE, hstep] at h2; cases h2
  | ok mid2 =>
      rw [foldE_cons_ok hstep] at h2
      obtain ⟨r3, ha, hb⟩ := procTierI_ok_elim hstep
      obtain ⟨s1, hs1, hs2⟩ := (foldE_append_ok _ _ _ _ _).1 hb
      cases hloc : procLoc name t s1 l h with
      | error e => rw [foldE, hloc] at hs2; cases hs2
      | ok s2 =>
          rw [foldE_cons_ok hloc] at hs2
          have hhost : getKey (t ++ "-" ++ l) s2 = some (.hosts h) :=
            procLoc_hosts hloc
          have hmid2 : getKey (t ++ "-" ++ l) mid2 = some (.hosts h) := by
            refine foldE_inv
              (fun s => getKey (t ++ "-" ++ l) s = some (.hosts h)) _ g2
              (fun s lv' s' hmem' hp' hstep' => ?_) s2 mid2 hhost hs2
            have hplv' : plainStr lv'.1 := hlp lv'
              (List.mem_append_right _ (List.mem_cons_of_mem _ hmem'))
            have hB : name ++ "-" ++ lv'.1 ≠ t ++ "-" ++ l := fun he =>
              htn (dashed_inj hpn hpt he).1.symm
            have hD : t ++ "-" ++ lv'.1 ≠ t ++ "-" ++ l := fun he =>
              hlnotin2 ((dashed_inj hpt hpt he).2 ▸
                List.mem_map_of_mem Prod.fst hmem')
            have hE : name ++ "-" ++ (t ++ "-" ++ lv'.1) ≠ t ++ "-" ++ l :=
              fun he => htn (dashed_inj hpn hpt he).1.symm
            show getKey (t ++ "-" ++ l) s' = some (.hosts h)
            rw [procLoc_frame hstep' (ne_dashed_left t l) hB
              (plain_ne_dashed hplv' _ _) hD hE]
            exact hp'
          refine foldE_inv
            (fun s => getKey (t ++ "-" ++ l) s = some (.hosts h)) _ d2
            (fun s tg' s' hmem' hp' hstep' => ?_) mid2 res hmid2 h2
          obtain ⟨hpt', htn', hlnd', hlp'⟩ := hmem tg'
            (List.mem_append_right _ (List.mem_cons_of_mem _ hmem'))
          have hT : tg'.1 ≠ t ++ "-" ++ l := plain_ne_dashed hpt' _ _
          have hNT : name ++ "-" ++ tg'.1 ≠ t ++ "-" ++ l := fun he =>
            htn (dashed_inj hpn hpt he).1.symm
          have hN : name ≠ t ++ "-" ++ l := plain_ne_dashed hpn _ _
          show getKey (t ++ "-" ++ l) s' = some (.hosts h)
          rw [procTierI_frame hstep' hT hNT hN ?_]
          · exact hp'
          · intro lv'' hmem''
            have hplv'' : plainStr lv''.1 := hlp' lv'' hmem''
            refine ⟨fun he => htn (dashed_inj hpn hpt he).1.symm,
              plain_ne_dashed hplv'' _ _, fun he => ?_,
              fun he => htn (dashed_inj hpn hpt he).1.symm⟩
            exact hnotin2 ((dashed_inj hpt' hpt he).1 ▸
              List.mem_map_of_mem Prod.fst hmem')

/-- `locUpdate` writes only children descriptors: hosts lookups pass
through it. -/
theorem locUpdate_hosts_back (hc : locUpdate loc il r = .ok r')
    (hh : getKey k r' = some (.hosts hs)) :
    getKey k r = some (.hosts hs) := by
  unfold locUpdate at hc
  cases hg : getKey loc r with
  | none =>
      rw [hg] at hc
      injection hc with hc'
      subst hc'
      rw [getKey_setKey] at hh
      split at hh
      · cases hh
      · exact hh
  | some d =>
      cases d with
      | children cs =>
          rw [hg] at hc
          injection hc with hc'
          subst hc'
          split at hh
          · exact hh
          · rw [getKey_setKey] at hh
            split at hh
            · cases hh
            · exact hh
      | hosts h2 => rw [hg] at hc; cases hc
      | meta => rw [hg] at hc; cases hc

/-- `appendChild` writes only children descriptors. -/
theorem appendChild_hosts_back (ha : appendChild a c r = .ok r')
    (hh : getKey k r' = some (.hosts hs)) :
    getKey k r = some (.hosts hs) := by
  obtain ⟨cs, -, rfl⟩ := (appendChild_ok_iff a c r r').1 ha
  rw [getKey_setKey] at hh
  split at hh
  · cases hh
  · exact hh

/-- A `procLoc` iteration can only add the hosts descriptor of its own
tier-location key; every other hosts binding was already present. -/
theorem procLoc_hosts_back (Q : String → Yaml → Prop)
    (hk : procLoc name tier r loc hosts = .ok r')
    (hr : ∀ k hs, getKey k r = some (.hosts hs) → Q k hs)
    (hnew : Q (tier ++ "-" ++ loc) hosts) :
    ∀ k hs, getKey k r' = some (.hosts hs) → Q k hs := by
  obtain ⟨r1, r4, ha, ⟨r3, hb, hc⟩, rfl⟩ := procLoc_ok_elim hk
  intro k hs hh
  rw [getKey_setKey] at hh
  split at hh
  · cases hh
  · rw [getKey_setKey] at hh
    split at hh
    · next heq =>
        injection hh with hh'
        injection hh' with hh''
        subst heq
        subst hh''
        exact hnew
    · have h3 := locUpdate_hosts_back hc hh
      have h2 := appendChild_hosts_back hb h3
      have h1 : getKey k r1 = some (.hosts hs) := by
        by_cases hif : hasKey (name ++ "-" ++ loc) r1
        · rw [if_pos hif] at h2
          exact h2
        · rw [if_neg hif] at h2
          rw [getKey_setKey] at h2
          split at h2
          · cases h2
          · exact h2
      exact hr k hs (appendChild_hosts_back ha h1)

/-- A `procTierI` iteration can only add hosts descriptors for its own
tier's tier-location keys. -/
theorem procTierI_hosts_back (Q : String → Yaml → Prop)
    (hk : procTierI name r tier group = .ok r')
    (hr : ∀ k hs, getKey k r = some (.hosts hs) → Q k hs)
    (hnew : ∀ lv ∈ group, Q (tier ++ "-" ++ lv.1) lv.2) :
    ∀ k hs, getKey k r' = some (.hosts hs) → Q k hs := by
  obtain ⟨r3, ha, hb⟩ := procTierI_ok_elim hk
  have h3 : ∀ k hs, getKey k r3 = some (.hosts hs) → Q k hs := by
    intro k hs hh
    have h2 := appendChild_hosts_back ha hh
    rw [getKey_setKey] at h2
    split at h2
    · cases h2
    · rw [getKey_setKey] at h2
      split at h2
      · cases h2
      · exact hr k hs h2
  exact foldE_inv (fun s => ∀ k hs, getKey k s = some (.hosts hs) → Q k hs)
    _ group
    (fun s lv s' hmem hp hstep =>
      procLoc_hosts_back Q hstep hp (hnew lv hmem))
    r3 r' h3 hb

/-- Part B of C2: every hosts descriptor of the output belongs to some
`tier-loc` key and carries exactly that pair's source hosts value (this
half needs no well-formedness at all). -/
theorem hostsOnly (name : String) (data : SrcInv) (res : Res)
    (hok : expandData name data = .ok res) :
    ∀ k hs, getKey k res = some (.hosts hs) →
      ∃ tg lv, tg ∈ data ∧ lv ∈ tg.2 ∧ lv.2 = hs ∧
        k = tg.1 ++ "-" ++ lv.1 := by
  unfold expandData at hok
  have hbase : ∀ k hs, getKey k (initRes name) = some (.hosts hs) →
      ∃ tg lv, tg ∈ data ∧ lv ∈ tg.2 ∧ lv.2 = hs ∧
        k = tg.1 ++ "-" ++ lv.1 := by
    intro k hs hh
    unfold initRes at hh
    rw [getKey_setKey] at hh
    split at hh
    · cases hh
    · unfold getKey at hh
      split at hh
      · cases hh
      · cases hh
  exact foldE_inv
    (fun s => ∀ k hs, getKey k s = some (.hosts hs) →
      ∃ tg lv, tg ∈ data ∧ lv ∈ tg.2 ∧ lv.2 = hs ∧
        k = tg.1 ++ "-" ++ lv.1) _ data
    (fun s tg s' hmem hp hstep =>
      procTierI_hosts_back _ hstep hp
        (fun lv hlv => ⟨tg, lv, hmem, hlv, rfl, rfl⟩))
    (initRes name) res hbase hok

/-- C2 (corrected): for every well-formed two-level inventory (delimiter-
free names, tiers distinct from the inventory name, mapping-semantics key
uniqueness), (a) every host value listed under `[tier][location]` appears,
unmodified and in its original order, as the hosts value of the output
group `tier-loc`, and (b) every group carrying a hosts list is such a
`tier-loc` group holding exactly the source value of its pair — so hosts
appear nowhere else.  The counterexample shows both halves fail for
arbitrary (colliding or host-duplicating) inputs. -/
theorem c2_hosts_exact (name : String) (data : SrcInv) (res : Res)
    (hwf : WfInv name data)
    (hok : buildResult name (invToYaml data) = .ok res) :
    (∀ tg ∈ data, ∀ lv ∈ tg.2,
      getKey (tg.1 ++ "-" ++ lv.1) res = some (.hosts lv.2)) ∧
    (∀ k hs, getKey k res = some (.hosts hs) →
      ∃ tg lv, tg ∈ data ∧ lv ∈ tg.2 ∧ lv.2 = hs ∧
        k = tg.1 ++ "-" ++ lv.1) := by
  rw [buildResult_invToYaml] at hok
  exact ⟨hostsExact name data res hwf hok, hostsOnly name data res hok⟩

/-- C2 witness: the amended theorem at a concrete inventory, showing the
`t1-l1` group holds exactly the `[t1][l1]` host list. -/
theorem c2_hosts_exact_witness :
    getKey ("t1" ++ "-" ++ "l1") wRes = some (.hosts (yhosts ["h"])) :=
  (c2_hosts_exact "n" wData wRes (by decide) rfl).1
    ("t1", [("l1", yhosts ["h"])]) (by simp [wData])
    ("l1", yhosts ["h"]) (by simp)

def c2colData : SrcInv :=
  [("a-b", [("c", yhosts ["h1"])]), ("a", [("b-c", yhosts ["h2"])])]

def c2colRes : Res :=
  [("_meta", .meta),
   ("n", .children ["a-b", "a"]),
   ("a-b", .children ["a-b-c"]),
   ("n-a-b", .children ["a-b"]),
   ("n-c", .children ["a-b-c"]),
   ("c", .children ["n-c"]),
   ("a-b-c", .hosts (yhosts ["h2"])),
   ("n-a-b-c", .children ["a-b-c"]),
   ("a", .children ["a-b-c"]),
   ("n-a", .children ["a"]),
   ("n-b-c", .children ["a-b-c"]),
   ("b-c", .children ["n-b-c"])]

def c2dupData : SrcInv :=
  [("t1", [("l", yhosts ["h"])]), ("t2", [("l", yhosts ["h"])])]

def c2dupRes : Res :=
  [("_meta", .meta),
   ("n", .children ["t1", "t2"]),
   ("t1", .children ["t1-l"]),
   ("n-t1", .children ["t1"]),
   ("n-l", .children ["t1-l", "t2-l"]),
   ("l", .children ["n-l"]),
   ("t1-l", .hosts (yhosts ["h"])),
   ("n-t1-l", .children ["t1-l"]),
   ("t2", .children ["t2-l"]),
   ("n-t2", .children ["t2"]),
   ("t2-l", .hosts (yhosts ["h"])),
   ("n-t2-l", .children ["t2-l"])]

/-- C2 (counterexample): as stated over EVERY valid two-level inventory
the claim is false.  (i) With tier `a-b`/location `c` and tier
`a`/location `b-c`, both pairs derive the group name `a-b-c`; the later
pair overwrites it, so host `h1` (listed under `[a-b][c]`) does not appear
in group `a-b-c`'s hosts list `[h2]`.  (ii) With host `h` listed under
both `[t1][l]` and `[t2][l]`, group `t2-l` — a group other than `t1-l` —
carries a hosts list containing `h`. -/
theorem c2_counterexample :
    buildResult "n" (invToYaml c2colData) = .ok c2colRes ∧
    getKey ("a-b" ++ "-" ++ "c") c2colRes = some (.hosts (yhosts ["h2"])) ∧
    "h1" ∉ (["h2"] : List String) ∧
    buildResult "n" (invToYaml c2dupData) = .ok c2dupRes ∧
    getKey "t1-l" c2dupRes = some (.hosts (yhosts ["h"])) ∧
    getKey "t2-l" c2dupRes = some (.hosts (yhosts ["h"])) ∧
    "h" ∈ (["h"] : List String) ∧ "t2-l" ≠ "t1-l" := by
  exact ⟨rfl, rfl, by decide, rfl, rfl, rfl, by decide, by decide⟩

/-!
## Claim C6: order lemmas for the key sort
-/

theorem char_eq_of_toNat_eq {a b : Char} (h : a.toNat = b.toNat) : a = b :=
  Char.ofNat_toNat a ▸ Char.ofNat_toNat b ▸ congrArg Char.ofNat h

theorem charsLt_trans {x y z : List Char} (h1 : charsLt x y = true)
    (h2 : charsLt y z = true) : charsLt x z = true := by
  induction x generalizing y z with
  | nil =>
      cases y with
      | nil => simp [charsLt] at h1
      | cons b bs =>
          cases z with
          | nil => simp [charsLt] at h2
          | cons c cs => rfl
  | cons a as ih =>
      cases y with
      | nil => simp [charsLt] at h1
      | cons b bs =>
          cases z with
          | nil => simp [charsLt] at h2
          | cons c cs =>
              simp only [charsLt] at h1 h2 ⊢
              by_cases hab : a.toNat < b.toNat <;>
                by_cases hba : b.toNat < a.toNat <;>
                  by_cases hbc : b.toNat < c.toNat <;>
                    by_cases hcb : c.toNat < b.toNat <;>
                      by_cases hac : a.toNat < c.toNat <;>
                        by_cases hca : c.toNat < a.toNat <;>
                          simp only [hab, hba, hbc, hcb, hac, hca, if_true,
                            if_false, reduceIte] at h1 h2 ⊢ <;>
                          first
                            | rfl
                            | omega
                            | exact ih h1 h2
                            | exact Bool.noConfusion h1
                            | exact Bool.noConfusion h2

theorem charsLt_trichotomy (x : List Char) :
    ∀ y, charsLt x y = true ∨ charsLt y x = true ∨ x = y := by
  induction x with
  | nil =>
      intro y
      cases y with
      | nil => exact Or.inr (Or.inr rfl)
      | cons b bs => exact Or.inl rfl
  | cons a as ih =>
      intro y
      cases y with
      | nil => exact Or.inr (Or.inl rfl)
      | cons b bs =>
          by_cases hab : a.toNat < b.toNat
          · exact Or.inl (by simp [charsLt, hab])
          · by_cases hba : b.toNat < a.toNat
            · exact Or.inr (Or.inl (by simp [charsLt, hba]))
            · have heq : a = b := char_eq_of_toNat_eq (by omega)
              subst heq
              rcases ih bs with h | h | h
              · exact Or.inl (by simp [charsLt, h])
              · exact Or.inr (Or.inl (by simp [charsLt, h]))
              · exact Or.inr (Or.inr (by rw [h]))

theorem charsLt_irrefl (x : List Char) : charsLt x x = false := by
  induction x with
  | nil => rfl
  | cons a as ih => simp [charsLt, ih]

theorem charsLt_asymm {x y : List Char} (h : charsLt x y = true) :
    charsLt y x = false := by
  cases hyx : charsLt y x with
  | false => rfl
  | true =>
      have hxx := charsLt_trans h hyx
      rw [charsLt_irrefl x] at hxx
      exact hxx.symm

theorem strLe_total (a b : String) : strLe a b = true ∨ strLe b a = true := by
  unfold strLe
  cases hc : charsLt b.data a.data with
  | false => exact Or.inl rfl
  | true => exact Or.inr (by simp [charsLt_asymm hc])

theorem strLe_trans {a b c : String} (h1 : strLe a b = true)
    (h2 : strLe b c = true) : strLe a c = true := by
  unfold strLe at h1 h2 ⊢
  rw [Bool.not_eq_true'] at h1 h2
  cases hca : charsLt c.data a.data with
  | false => simp
  | true =>
      exfalso
      rcases charsLt_trichotomy a.data b.data with h | h | h
      · have := charsLt_trans hca h
        rw [h2] at this
        exact Bool.noConfusion this
      · rw [h1] at h
        exact Bool.noConfusion h
      · rw [h] at hca
        rw [h2] at hca
        exact Bool.noConfusion hca

theorem strLe_antisymm {a b : String} (h1 : strLe a b = true)
    (h2 : strLe b a = true) : a = b := by
  unfold strLe at h1 h2
  rw [Bool.not_eq_true'] at h1 h2
  rcases charsLt_trichotomy a.data b.data with h | h | h
  · rw [h2] at h
    exact Bool.noConfusion h
  · rw [h1] at h
    exact Bool.noConfusion h
  · cases a
    cases b
    exact congrArg String.mk h

/-- The (non-strict) key order the serializer sorts by. -/
def pairLe (p q : String × String) : Prop := strLe p.1 q.1 = true

/-- The strict key order used to show sorted outputs are unique. -/
def pairLt (p q : String × String) : Prop := strLe p.1 q.1 = true ∧ p.1 ≠ q.1

instance : IsAntisymm (String × String) pairLt :=
  ⟨fun _ _ h1 h2 => absurd (strLe_antisymm h1.1 h2.1) h1.2⟩

theorem insertPair_perm (p : String × String) (l : List (String × String)) :
    (insertPair p l).Perm (p :: l) := by
  induction l with
  | nil => exact List.Perm.refl _
  | cons q ps ih =>
      unfold insertPair
      split
      · exact List.Perm.refl _
      · exact (List.Perm.cons q ih).trans (List.Perm.swap p q ps)

theorem sortPairs_perm (l : List (String × String)) : (sortPairs l).Perm l := by
  induction l with
  | nil => exact List.Perm.refl _
  | cons p ps ih => exact (insertPair_perm p (sortPairs ps)).trans (ih.cons p)

theorem insertPair_pairwise (p : String × String) (l : List (String × String))
    (h : l.Pairwise pairLe) : (insertPair p l).Pairwise pairLe := by
  induction l with
  | nil => simp [insertPair, pairLe]
  | cons q ps ih =>
      rcases List.pairwise_cons.1 h with ⟨hq, hps⟩
      unfold insertPair
      split
      · next hle =>
          refine List.pairwise_cons.2 ⟨?_, h⟩
          intro x hx
          rcases List.mem_cons.1 hx with rfl | hx'
          · exact hle
          · exact strLe_trans hle (hq x hx')
      · next hgt =>
          refine List.pairwise_cons.2 ⟨?_, ih hps⟩
          intro x hx
          have hx' := (insertPair_perm p ps).mem_iff.1 hx
          rcases List.mem_cons.1 hx' with rfl | hx''
          · rcases strLe_total x.1 q.1 with hh | hh
            · exact absurd hh hgt
            · exact hh
          · exact hq x hx''

theorem sortPairs_pairwise (l : List (String × String)) :
    (sortPairs l).Pairwise pairLe := by
  induction l with
  | nil => exact List.Pairwise.nil
  | cons p ps ih => exact insertPair_pairwise p _ ih

/-- With duplicate-free keys, sorting is insensitive to the input order:
the serializer's output depends only on the key/value SET. -/
theorem sortPairs_eq_of_perm {l1 l2 : List (String × String)}
    (hperm : l1.Perm l2) (hnd : (l1.map Prod.fst).Nodup) :
    sortPairs l1 = sortPairs l2 := by
  have hp : (sortPairs l1).Perm (sortPairs l2) :=
    (sortPairs_perm l1).trans (hperm.trans (sortPairs_perm l2).symm)
  have hnd1 : ((sortPairs l1).map Prod.fst).Nodup :=
    (List.Perm.nodup_iff ((sortPairs_perm l1).map Prod.fst)).2 hnd
  have hnd2 : ((sortPairs l2).map Prod.fst).Nodup :=
    (List.Perm.nodup_iff (hp.map Prod.fst)).1 hnd1
  have hs1 : (sortPairs l1).Pairwise pairLt := by
    have hne := List.pairwise_map.1 hnd1
    exact ((sortPairs_pairwise l1).and hne).imp (fun h => ⟨h.1, h.2⟩)
  have hs2 : (sortPairs l2).Pairwise pairLt := by
    have hne := List.pairwise_map.1 hnd2
    exact ((sortPairs_pairwise l2).and hne).imp (fun h => ⟨h.1, h.2⟩)
  exact List.eq_of_perm_of_sorted hp hs1 hs2

theorem yjMap_ofList (isep : String) (ind : Nat) (L : List (String × Yaml)) :
    yjMap isep ind (YamlMap.ofList L) =
      L.map (fun p => (p.1, yjVal isep ind p.2)) := by
  induction L with
  | nil => rfl
  | cons kv tl ih =>
      obtain ⟨k, v⟩ := kv
      simp [YamlMap.ofList, yjMap, ih]

theorem yjVal_map_congr (isep : String) (ind : Nat)
    (L L' : List (String × Yaml))
    (hL : sortPairs (L.map (fun p => (p.1, yjVal isep (ind + 1) p.2))) =
          sortPairs (L'.map (fun p => (p.1, yjVal isep (ind + 1) p.2))))
    (hnil : L = [] ↔ L' = []) :
    yjVal isep ind (.map (YamlMap.ofList L)) =
      yjVal isep ind (.map (YamlMap.ofList L')) := by
  cases L with
  | nil =>
      cases L' with
      | nil => rfl
      | cons y ys => simp at hnil
  | cons x xs =>
      cases L' with
      | nil => simp at hnil
      | cons y ys =>
          simp only [List.map_cons] at hL
          simp only [show YamlMap.ofList (x :: xs) =
              YamlMap.cons x.1 x.2 (YamlMap.ofList xs) from rfl,
            show YamlMap.ofList (y :: ys) =
              YamlMap.cons y.1 y.2 (YamlMap.ofList ys) from rfl,
            yjVal, yjMap, yjMap_ofList]
          rw [hL]

theorem serializeRes_perm (r r' : Res) (hperm : r.Perm r')
    (hnd : (r.map Prod.fst).Nodup) : serializeRes r = serializeRes r' := by
  unfold serializeRes resToYaml
  apply yjVal_map_congr
  · apply sortPairs_eq_of_perm
    · exact (hperm.map _).map _
    · have hkeys : (((r.map fun kv => (kv.1, descToYaml kv.2)).map
          (fun p => (p.1, yjVal "," (0 + 1) p.2))).map Prod.fst) =
          r.map Prod.fst := by
        simp only [List.map_map]
        rfl
      rw [hkeys]
      exact hnd
  · simp only [List.map_eq_nil_iff]
    constructor
    · intro h
      subst h
      exact hperm.symm.eq_nil
    · intro h
      subst h
      exact hperm.eq_nil

/-- A snapshot whose `prod.yml` parses to the C1 scenario data. -/
def c6fs : String → Option (Except String Yaml) := fun p =>
  if p = "prod.yml" then some (.ok (invToYaml c1data)) else none

/-- The exact bytes `json.dumps(result, sort_keys=True, indent=4,
separators=(',', ': '))` produces for the C1 scenario (verified
byte-for-byte against CPython): keys sorted at every nesting level,
4-space indentation, item separator `","` followed by the newline/indent,
key separator `": "`. -/
def c6json : String :=
  "\x7b\n    \x22_meta\x22: \x7b\n        \x22hostvars\x22: \x7b\x7d\n    \x7d,\n    \x22db\x22: \x7b\n        \x22children\x22: [\n            \x22db-us\x22\n        ]\n    \x7d,\n    \x22db-us\x22: \x7b\n        \x22hosts\x22: [\n            \x22h4\x22\n        ]\n    \x7d,\n    \x22eu\x22: \x7b\n        \x22children\x22: [\n            \x22prod-eu\x22\n        ]\n    \x7d,\n    \x22prod\x22: \x7b\n        \x22children\x22: [\n            \x22web\x22,\n            \x22db\x22\n        ]\n    \x7d,\n    \x22prod-db\x22: \x7b\n        \x22children\x22: [\n            \x22db\x22\n        ]\n    \x7d,\n    \x22prod-db-us\x22: \x7b\n        \x22children\x22: [\n            \x22db-us\x22\n        ]\n    \x7d,\n    \x22prod-eu\x22: \x7b\n        \x22children\x22: [\n            \x22web-eu\x22\n        ]\n    \x7d,\n    \x22prod-us\x22: \x7b\n        \x22children\x22: [\n            \x22web-us\x22,\n            \x22db-us\x22\n        ]\n    \x7d,\n    \x22prod-web\x22: \x7b\n        \x22children\x22: [\n            \x22web\x22\n        ]\n    \x7d,\n    \x22prod-web-eu\x22: \x7b\n        \x22children\x22: [\n            \x22web-eu\x22\n        ]\n    \x7d,\n    \x22prod-web-us\x22: \x7b\n        \x22children\x22: [\n            \x22web-us\x22\n        ]\n    \x7d,\n    \x22us\x22: \x7b\n        \x22children\x22: [\n            \x22prod-us\x22\n        ]\n    \x7d,\n    \x22web\x22: \x7b\n        \x22children\x22: [\n            \x22web-us\x22,\n            \x22web-eu\x22\n        ]\n    \x7d,\n    \x22web-eu\x22: \x7b\n        \x22hosts\x22: [\n            \x22h3\x22\n        ]\n    \x7d,\n    \x22web-us\x22: \x7b\n        \x22hosts\x22: [\n            \x22h1\x22,\n            \x22h2\x22\n        ]\n    \x7d\n\x7d"

/-- C6 (corrected): the group graph is serialized with keys sorted
lexicographically at every nesting level, a fixed indentation of 4 spaces,
`","` (not `", "`) as the item separator and `": "` as the key separator —
shown concretely on the C1 scenario — and the bytes depend only on the
key/descriptor SET of the result dict (so identical input gives
byte-for-byte identical output regardless of dict insertion order). -/
theorem c6_serialization :
    parse_inventory c6fs "prod.yml" = .ok c6json ∧
    (∀ r r' : Res, r.Perm r' → (r.map Prod.fst).Nodup →
      serializeRes r = serializeRes r') := by
  exact ⟨rfl, serializeRes_perm⟩

def c6permA : Res := [("b", .children ["x"]), ("a", GroupDesc.meta)]

def c6permB : Res := [("a", GroupDesc.meta), ("b", .children ["x"])]

/-- C6 witness: the order-insensitivity half applied to a concrete
two-entry dict and its reversal. -/
theorem c6_serialization_witness : serializeRes c6permA = serializeRes c6permB :=
  c6_serialization.2 c6permA c6permB (List.Perm.swap _ _ _) (by decide)

/-- C6 (counterexample): the claim names `", "` as the item separator, but
the source passes `separators=(',', ': ')`: the item separator is `","`.
With `", "`, Python would emit a trailing space before each item newline
(`serializeResSpecSep`); the source's output differs from that format at
every multi-entry dict. -/
theorem c6_counterexample :
    serializeRes c6permA =
      "\x7b\n    \x22a\x22: \x7b\n        \x22hostvars\x22: \x7b\x7d\n    \x7d,\n    \x22b\x22: \x7b\n        \x22children\x22: [\n            \x22x\x22\n        ]\n    \x7d\n\x7d" ∧
    serializeResSpecSep c6permA =
      "\x7b\n    \x22a\x22: \x7b\n        \x22hostvars\x22: \x7b\x7d\n    \x7d, \n    \x22b\x22: \x7b\n        \x22children\x22: [\n            \x22x\x22\n        ]\n    \x7d\n\x7d" ∧
    serializeRes c6permA ≠ serializeResSpecSep c6permA := by
  refine ⟨rfl, rfl, by decide⟩
